import Mathlib

/-!
Verification development for the ODL license-pool concurrency and
hold-queue reconciliation engine of the circulation manager.

The repository ships the test-suite for this engine
(`tests/manager/api/odl2/test_api.py`), its collection settings
(`src/palace/manager/api/odl2/settings.py`) and its fixtures, but the
engine implementation itself (`palace.manager.api.odl.api`) is not part
of the source tree available here.  The definitions below are therefore
modelled from the specification (spec.md sections 3, 4.2, 4.3 and 4.4),
with the concrete expectations of the shipped test-suite used to resolve
ambiguities in the spec's prose.  Time is modelled as an integer clock
(`Int`); durations such as the reservation period and the loan period are
integer parameters in the same unit (days).
-/

namespace ODL2

/-- Modelled from the spec: the recognized `status` values of a remote
License Status Document (spec section 4.1 / 6). -/
inductive LoanStatus where
  | ready
  | active
  | revoked
  | returned
  | cancelled
  | expired
deriving DecidableEq, Repr

/-- Modelled from the spec: the parts of a License Status Document that
the orchestrator inspects: the status, the `self` link, the `return`
link, and `potential_rights.end` (spec section 6). -/
structure StatusDoc where
  status : LoanStatus
  selfLink : Option String
  returnLink : Option String
  potentialRightsEnd : Option Int
deriving DecidableEq, Repr

/-- Modelled from the spec: a License, one purchasable concurrency unit
of a title (spec section 3).  `checkouts_left = none` and
`terms_concurrency = none` mean unlimited; `expires = none` means no
absolute expiry. -/
structure License where
  checkouts_available : Nat
  checkouts_left : Option Nat
  terms_concurrency : Option Nat
  expires : Option Int
deriving DecidableEq, Repr

/-- Modelled from the spec: a Loan row, a patron's active claim on one
unit of a pool's capacity (spec section 3).  `licenseIndex` identifies
the License backing the loan by its index in the pool's license list. -/
structure Loan where
  patron : Nat
  licenseIndex : Nat
  start : Int
  endDate : Option Int
deriving DecidableEq, Repr

/-- Modelled from the spec: a Hold row: a patron's position in a title's
wait queue; `position = 0` means reserved, `position > 0` is the FIFO
rank, `endDate` is the reservation deadline once promoted, else the
estimated availability date (spec section 3). -/
structure Hold where
  patron : Nat
  start : Int
  endDate : Option Int
  position : Nat
deriving DecidableEq, Repr

/-- Modelled from the spec: the LoanInfo record returned by a successful
checkout (spec section 4.4; open-access loans have all three fields
empty). -/
structure LoanInfo where
  start_date : Option Int
  end_date : Option Int
  external_identifier : Option String
deriving DecidableEq, Repr

/-- Modelled from the spec: the HoldInfo record returned by a successful
place_hold. -/
structure HoldInfo where
  start_date : Option Int
  end_date : Option Int
  hold_position : Nat
deriving DecidableEq, Repr

/-- Modelled from the spec: the typed failures of the orchestrator
(spec section 7). -/
inductive CircErr where
  | AlreadyCheckedOut
  | NoLicenses
  | NoAvailableCopies
  | CannotLoan
  | NotCheckedOut
  | CurrentlyAvailable
  | AlreadyOnHold
  | HoldsNotPermitted
  | NotOnHold
deriving DecidableEq, Repr

/-- Modelled from the spec: the durable state of one LicensePool: its
licenses, loan rows, hold rows, and the four aggregate counters
(spec section 3). -/
structure PoolState where
  open_access : Bool
  licenses : List License
  loans : List Loan
  holds : List Hold
  licenses_owned : Nat
  licenses_available : Nat
  licenses_reserved : Nat
  patrons_in_hold_queue : Nat
deriving DecidableEq, Repr

/-- Result of one orchestrator operation: the post-operation pool state,
the outcome (a value or a typed failure), and the number of remote
License Status Document requests the operation issued. -/
structure OpResult (α : Type) where
  state : PoolState
  outcome : Except CircErr α
  calls : Nat

/-- Modelled from the spec: a license is active (not "inactive") iff it
has not passed its expiry and its lifetime checkouts are not exhausted
(spec sections 3 and 4.2). -/
def licenseActive (now : Int) (l : License) : Bool :=
  (match l.expires with
   | none => true
   | some e => decide (now < e)) &&
  (match l.checkouts_left with
   | none => true
   | some n => decide (0 < n))

/-- Modelled from the spec: a License is usable iff not expired,
`checkouts_left` is None or positive, and `checkouts_available > 0`
(spec section 3). -/
def licenseUsable (now : Int) (l : License) : Bool :=
  licenseActive now l && decide (0 < l.checkouts_available)

/-- A hold is expired iff its end date is set and has passed
(spec section 4.3: end in the past while queued or unclaimed). -/
def holdExpired (now : Int) (h : Hold) : Bool :=
  match h.endDate with
  | none => false
  | some e => decide (e ≤ now)

/-- A hold is active iff it is not expired. -/
def holdActive (now : Int) (h : Hold) : Bool :=
  !holdExpired now h

/-- A reserved hold: position 0 and not expired (spec section 4.3). -/
def holdReserved (now : Int) (h : Hold) : Bool :=
  h.position == 0 && holdActive now h

/-- A queued hold: positive position and not expired (spec section 4.3). -/
def holdQueued (now : Int) (h : Hold) : Bool :=
  decide (0 < h.position) && holdActive now h

/-- A loan is active iff it has no end date or its end date is in the
future. -/
def loanActive (now : Int) (lo : Loan) : Bool :=
  match lo.endDate with
  | none => true
  | some e => decide (now < e)

/-- The statuses under which a remote loan is no longer active
(returned early, revoked, cancelled or expired). -/
def statusInactive (st : LoanStatus) : Bool :=
  match st with
  | .revoked => true
  | .returned => true
  | .cancelled => true
  | .expired => true
  | _ => false

/-- Modelled from the spec: total free concurrency over the active
licenses, `sum(license.checkouts_available)` (spec section 4.2). -/
def availableRaw (now : Int) (ls : List License) : Nat :=
  (ls.map (fun l => if licenseActive now l then l.checkouts_available else 0)).sum

/-- Modelled from the spec: `licenses_owned`, the summed concurrency of
the active licenses, `sum(license.terms_concurrency or 1)`
(spec section 4.2). -/
def ownedTotal (now : Int) (ls : List License) : Nat :=
  (ls.map (fun l => if licenseActive now l then l.terms_concurrency.getD 1 else 0)).sum

/-- Count of reserved (position-0, non-expired) holds. -/
def reservedHoldCount (now : Int) (hs : List Hold) : Nat :=
  hs.countP (fun h => holdReserved now h)

/-- Count of non-expired holds (reserved or queued):
`patrons_in_hold_queue`. -/
def activeHoldCount (now : Int) (hs : List Hold) : Nat :=
  hs.countP (fun h => holdActive now h)

/-- Count of non-expired queued (position > 0) holds. -/
def queuedActiveCount (now : Int) (hs : List Hold) : Nat :=
  hs.countP (fun h => holdQueued now h)

/-- Count of active loans. -/
def activeLoanCount (now : Int) (loans : List Loan) : Nat :=
  loans.countP (loanActive now)

/-- Modelled from the spec: recompute the pool aggregates from the
License set plus the hold rows: reserved capacity is carved out of
availability, never double-counted (spec section 4.2,
`recompute_pool`). -/
def update_availability_from_licenses (now : Int) (s : PoolState) : PoolState :=
  { s with
    licenses_owned := ownedTotal now s.licenses
    licenses_available := availableRaw now s.licenses - reservedHoldCount now s.holds
    licenses_reserved := reservedHoldCount now s.holds
    patrons_in_hold_queue := activeHoldCount now s.holds }

/-- Promoting a hold to a reservation: position becomes 0 and the end
date becomes `now + reservationPeriod` (spec section 4.3). -/
def promoteHold (now reservationPeriod : Int) (h : Hold) : Hold :=
  { h with position := 0, endDate := some (now + reservationPeriod) }

/-- `h` is a non-expired queued hold whose start is no later than every
non-expired queued hold of `t` (the earliest hold, with list order
breaking ties). -/
def isMinQueued (now : Int) (h : Hold) (t : List Hold) : Bool :=
  holdQueued now h && t.all (fun h2 => !holdQueued now h2 || decide (h.start ≤ h2.start))

/-- Modelled from the spec: promote the earliest non-expired queued hold
of the list to a reservation, leaving every other hold unchanged
(spec section 4.3). -/
def promoteOne (now reservationPeriod : Int) : List Hold → List Hold
  | [] => []
  | h :: t =>
    if isMinQueued now h t then promoteHold now reservationPeriod h :: t
    else h :: promoteOne now reservationPeriod t

/-- Modelled from the spec: promote earliest non-expired queued holds,
one per freed unit of capacity, until the capacity or the queue is
exhausted (spec section 4.3). -/
def promoteN (now reservationPeriod : Int) : Nat → List Hold → List Hold
  | 0, hs => hs
  | fuel + 1, hs =>
    if queuedActiveCount now hs == 0 then hs
    else promoteN now reservationPeriod fuel (promoteOne now reservationPeriod hs)

/-- Modelled from the spec: `update_licensepool`: recompute the pool
aggregates from the licenses and holds, promoting queued holds onto any
capacity not already carved out for existing reservations
(spec sections 4.2 and 4.3). -/
def update_licensepool (now reservationPeriod : Int) (s : PoolState) : PoolState :=
  let freed := availableRaw now s.licenses - reservedHoldCount now s.holds
  update_availability_from_licenses now
    { s with holds := promoteN now reservationPeriod freed s.holds }

/-- Expiry ordering for license selection: an expiring license sorts
before a non-expiring one, earlier expiry first (spec section 4.2). -/
def expiresBefore (a b : Option Int) : Bool :=
  match a, b with
  | none, _ => false
  | some _, none => true
  | some x, some y => decide (x < y)

/-- Lifetime-checkouts ordering for license selection: an unlimited
license counts as having the most checkouts left (spec section 4.2). -/
def moreLeft (a b : Option Nat) : Bool :=
  match a, b with
  | none, none => false
  | none, some _ => true
  | some _, none => false
  | some x, some y => decide (y < x)

/-- Modelled from the spec: license `a` is preferred to `b` by
`select_checkout_license`: earliest `expires` first (to exhaust
soon-expiring inventory first), then the most `checkouts_left` remaining
(spec section 4.2). -/
def betterLicense (a b : License) : Bool :=
  expiresBefore a.expires b.expires ||
    (a.expires == b.expires && moreLeft a.checkouts_left b.checkouts_left)

/-- Modelled from the spec: `select_checkout_license`: choose, among the
usable licenses, the preferred one per `betterLicense`; `none` when no
license is usable (spec section 4.2).  Returns the index of the chosen
license. -/
def select_checkout_license (now : Int) (ls : List License) : Option Nat :=
  let usableIdx := (List.range ls.length).filter
    (fun i => match ls[i]? with
              | some l => licenseUsable now l
              | none => false)
  match usableIdx with
  | [] => none
  | i :: rest =>
    some (rest.foldl
      (fun best j =>
        match ls[best]?, ls[j]? with
        | some lb, some lj => if betterLicense lj lb then j else best
        | _, _ => best) i)

/-- Modelled from the spec: `apply_checkout`: decrement
`checkouts_available` by one and, when bounded, `checkouts_left` by one
(spec section 4.2). -/
def apply_checkout (l : License) : License :=
  { l with
    checkouts_available := l.checkouts_available - 1
    checkouts_left := l.checkouts_left.map (fun n => n - 1) }

/-- Modelled from the spec: `apply_checkin`: increment
`checkouts_available` by one, capped at `terms_concurrency`
(spec section 4.2). -/
def apply_checkin (l : License) : License :=
  { l with
    checkouts_available :=
      match l.terms_concurrency with
      | some c => min (l.checkouts_available + 1) c
      | none => l.checkouts_available + 1 }

/-- Modelled from the spec: `_count_holds_before`: the number of
non-expired holds on the pool with an earlier start
(spec section 4.3). -/
def count_holds_before (now : Int) (hs : List Hold) (start : Int) : Nat :=
  hs.countP (fun h => decide (h.start < start) && holdActive now h)

/-- Modelled from the spec: `_update_hold_position`: position 0 when a
reservation slot is free for this hold (more remaining licenses than
earlier non-expired holds), else one plus the number of earlier
non-expired holds (spec section 4.3). -/
def update_hold_position (now : Int) (s : PoolState) (start : Int) : Nat :=
  let before := count_holds_before now s.holds start
  if before < s.licenses_owned - activeLoanCount now s.loans then 0
  else before + 1

/-- Modelled from the spec: the future release events of the pool's
capacity: each active loan frees a unit at its end date; each currently
reserved hold frees a unit one loan period after its reservation
deadline (a reserved hold with no deadline is treated as reserved until
`now + reservationPeriod`) (spec section 4.3,
`_update_hold_end_date`). -/
def releaseEvents (now loanPeriod reservationPeriod : Int)
    (loanEnds : List Int) (reservedEnds : List (Option Int)) : List Int :=
  List.insertionSort (fun a b => a ≤ b)
    (loanEnds.filter (fun e => decide (now < e)) ++
      reservedEnds.map (fun e => e.getD (now + reservationPeriod) + loanPeriod))

/-- Modelled from the spec: the worst-case wait estimate for the hold at
queue rank `rank` (1-based, among unreserved holds): walk forward
through the sorted release events, consuming one full cycle
(reservation period plus loan period) each time the walk wraps around
the pool's capacity (spec section 4.3, `_update_hold_end_date`). -/
def holdEndEstimate (events : List Int) (cycle : Int) (rank : Nat) : Option Int :=
  match events with
  | [] => none
  | _ :: _ =>
    some (events.getD ((rank - 1) % events.length) 0 +
      (((rank - 1) / events.length : Nat) : Int) * cycle)

/-- The end dates of the pool's active loans. -/
def activeLoanEnds (now : Int) (loans : List Loan) : List Int :=
  (loans.filter (loanActive now)).filterMap (fun lo => lo.endDate)

/-- The pool's non-expired holds sorted by start ascending. -/
def sortedActiveHolds (now : Int) (hs : List Hold) : List Hold :=
  List.insertionSort (fun a b => a.start ≤ b.start) (hs.filter (holdActive now))

/-- The reservation deadlines of the pool's reserved holds: the first
`licenses_reserved` non-expired holds in start order hold the
reservations. -/
def reservedHoldEnds (now : Int) (reserved : Nat) (hs : List Hold) : List (Option Int) :=
  ((sortedActiveHolds now hs).take reserved).map (fun h => h.endDate)

/-- Modelled from the spec: `_update_hold_end_date` for a hold *not*
contained in `s.holds` (the pool's other holds): recompute the hold's
position; a hold that was already reserved and has an end date keeps it;
a newly reserved hold gets `now + reservationPeriod`; a queued hold gets
the worst-case wait estimate for its rank past the pool's reserved
holds (spec section 4.3). -/
def update_hold_end_date (now reservationPeriod loanPeriod : Int) (s : PoolState)
    (start : Int) (origPosition : Nat) (origEnd : Option Int) : Option Int :=
  let pos := update_hold_position now s start
  if pos == 0 then
    if origPosition == 0 && origEnd.isSome then origEnd
    else some (now + reservationPeriod)
  else
    holdEndEstimate
      (releaseEvents now loanPeriod reservationPeriod
        (activeLoanEnds now s.loans)
        (reservedHoldEnds now s.licenses_reserved s.holds))
      (reservationPeriod + loanPeriod)
      (pos - s.licenses_reserved)

/-- Modelled from the spec: the collection-configurable reservation
period defaults to 3 days (spec sections 4.3 and 8;
`ODL2Settings.default_reservation_period` defaults to
`Collection.STANDARD_DEFAULT_RESERVATION_PERIOD`). -/
def STANDARD_DEFAULT_RESERVATION_PERIOD : Int := 3

/-- Remove a patron's loan row (the first one, if any). -/
def removeLoan (patron : Nat) (loans : List Loan) : List Loan :=
  loans.eraseP (fun lo => lo.patron == patron)

/-- Remove a patron's hold rows. -/
def removeHolds (patron : Nat) (hs : List Hold) : List Hold :=
  hs.filter (fun h => !(h.patron == patron))

/-- Modelled from the spec: the shared removal path of `update_loan` and
checkin when a loan is no longer active remotely: increment the
license's availability, delete the local loan, and rebalance the pool
(spec section 4.4). -/
def apply_loan_removal (now reservationPeriod : Int) (patron : Nat)
    (lo : Loan) (s : PoolState) : PoolState :=
  let ls :=
    match s.licenses[lo.licenseIndex]? with
    | some l => s.licenses.set lo.licenseIndex (apply_checkin l)
    | none => s.licenses
  update_licensepool now reservationPeriod
    { s with licenses := ls, loans := removeLoan patron s.loans }

/-- Modelled from the spec: `update_loan`: when a status document reports
the loan no longer active, update the pool's availability and delete the
local loan, rebalancing the hold queue; otherwise do nothing
(spec section 4.4). -/
def update_loan (now reservationPeriod : Int) (doc : StatusDoc) (patron : Nat)
    (s : PoolState) : PoolState :=
  match s.loans.find? (fun lo => lo.patron == patron) with
  | none => s
  | some lo =>
    if statusInactive doc.status then apply_loan_removal now reservationPeriod patron lo s
    else s

/-- Modelled from the spec: the patron holds an unexpired reservation
(position-0 hold) on the pool, entitling an immediate checkout even when
`licenses_available` is zero (spec section 4.4). -/
def patronHoldOk (now : Int) (patron : Nat) (s : PoolState) : Bool :=
  match s.holds.find? (fun h => h.patron == patron) with
  | some h => h.position == 0 && holdActive now h
  | none => false

/-- The local mutation of a successful checkout: decrement the selected
license, create the loan row, delete any hold of the patron as claimed,
and rebalance the pool. -/
def checkout_apply (now reservationPeriod : Int) (doc : StatusDoc)
    (patron i : Nat) (l : License) (s : PoolState) : PoolState :=
  update_licensepool now reservationPeriod
    { s with
      licenses := s.licenses.set i (apply_checkout l)
      loans := s.loans ++ [⟨patron, i, now, doc.potentialRightsEnd⟩]
      holds := removeHolds patron s.holds }

/-- Modelled from the spec: `checkout` (spec section 4.4).  The remote
License Status Document that the distributor would return for the
registration call is passed in as `doc`; the operation fails with
`CannotLoan`, without any local mutation, when its status is not
ready/active or it lacks a self link.  On success the selected license
is decremented, the loan row is created, any hold of the patron is
deleted as claimed, and the pool is rebalanced. -/
def checkout (now reservationPeriod : Int) (doc : StatusDoc)
    (patron : Nat) (s : PoolState) : OpResult LoanInfo :=
  if s.open_access then
    ⟨s, .ok ⟨none, none, none⟩, 0⟩
  else if s.loans.any (fun lo => lo.patron == patron) then
    ⟨s, .error .AlreadyCheckedOut, 0⟩
  else if s.licenses.all (fun l => !licenseActive now l) then
    ⟨s, .error .NoLicenses, 0⟩
  else if !patronHoldOk now patron s && s.licenses_available == 0 then
    ⟨s, .error .NoAvailableCopies, 0⟩
  else
    match select_checkout_license now s.licenses with
    | none => ⟨s, .error .NoAvailableCopies, 0⟩
    | some i =>
      if !(doc.status == .ready || doc.status == .active) || doc.selfLink.isNone then
        ⟨s, .error .CannotLoan, 1⟩
      else
        match s.licenses[i]? with
        | none => ⟨s, .error .NoAvailableCopies, 1⟩
        | some l =>
          ⟨checkout_apply now reservationPeriod doc patron i l s,
            .ok ⟨some now, doc.potentialRightsEnd, doc.selfLink⟩, 1⟩

/-- Modelled from the spec: `checkin` (spec section 4.4).  `doc1` is the
status document fetched for the loan; when it reports the loan already
inactive the local loan is deleted and the operation fails with
`NotCheckedOut`.  When the document has no return link the operation is
a silent no-op.  Otherwise the return link is hit and the refetched
document `doc2` decides whether the loan is gone: if so, availability is
incremented, the loan deleted and the hold queue rebalanced. -/
def checkin (now reservationPeriod : Int) (doc1 doc2 : StatusDoc) (patron : Nat)
    (s : PoolState) : OpResult Unit :=
  match s.loans.find? (fun lo => lo.patron == patron) with
  | none => ⟨s, .error .NotCheckedOut, 0⟩
  | some lo =>
    if s.open_access then ⟨s, .ok (), 0⟩
    else if statusInactive doc1.status then
      ⟨apply_loan_removal now reservationPeriod patron lo s, .error .NotCheckedOut, 1⟩
    else
      match doc1.returnLink with
      | none => ⟨s, .ok (), 1⟩
      | some _ =>
        if statusInactive doc2.status then
          ⟨apply_loan_removal now reservationPeriod patron lo s, .ok (), 3⟩
        else ⟨s, .ok (), 3⟩

/-- Modelled from the spec: `place_hold` (spec sections 4.3 and 4.4).
A collection configured with `hold_limit = 0` never permits holds;
otherwise the pool is brought up to date, a pool with free capacity
rejects the hold with `CurrentlyAvailable`, a duplicate hold with
`AlreadyOnHold`, and otherwise a queued hold starting now is inserted
with freshly computed position and estimated end date. -/
def place_hold (now reservationPeriod loanPeriod : Int) (holdLimit : Option Nat)
    (patron : Nat) (s : PoolState) : OpResult HoldInfo :=
  if holdLimit == some 0 then
    ⟨s, .error .HoldsNotPermitted, 0⟩
  else
    let s1 := update_licensepool now reservationPeriod s
    if decide (0 < s1.licenses_available) then
      ⟨s1, .error .CurrentlyAvailable, 0⟩
    else if s1.holds.any (fun h => h.patron == patron) then
      ⟨s1, .error .AlreadyOnHold, 0⟩
    else
      let pos := update_hold_position now s1 now
      let endEst := update_hold_end_date now reservationPeriod loanPeriod s1 now (pos + 1) none
      let newHold : Hold := ⟨patron, now, endEst, pos⟩
      ⟨update_availability_from_licenses now { s1 with holds := s1.holds ++ [newHold] },
        .ok ⟨some now, endEst, pos⟩, 0⟩

/-- Modelled from the spec: `release_hold` (spec sections 4.3 and 4.4):
delete the patron's hold and rebalance the pool, promoting the next
queued hold when a reserved unit was freed. -/
def release_hold (now reservationPeriod : Int) (patron : Nat)
    (s : PoolState) : OpResult Unit :=
  if s.holds.any (fun h => h.patron == patron) then
    ⟨update_licensepool now reservationPeriod { s with holds := removeHolds patron s.holds },
      .ok (), 0⟩
  else ⟨s, .error .NotOnHold, 0⟩

/-- The core operations of the orchestrator, as one inductive type. -/
inductive CircOp where
  | checkoutOp (doc : StatusDoc) (patron : Nat)
  | checkinOp (doc1 doc2 : StatusDoc) (patron : Nat)
  | placeHoldOp (holdLimit : Option Nat) (patron : Nat)
  | releaseHoldOp (patron : Nat)
  | updatePoolOp
  | updateLoanOp (doc : StatusDoc) (patron : Nat)

/-- The pool state after one core operation. -/
def applyOp (now reservationPeriod loanPeriod : Int) : CircOp → PoolState → PoolState
  | .checkoutOp doc patron, s => (checkout now reservationPeriod doc patron s).state
  | .checkinOp d1 d2 patron, s => (checkin now reservationPeriod d1 d2 patron s).state
  | .placeHoldOp hl patron, s => (place_hold now reservationPeriod loanPeriod hl patron s).state
  | .releaseHoldOp patron, s => (release_hold now reservationPeriod patron s).state
  | .updatePoolOp, s => update_licensepool now reservationPeriod s
  | .updateLoanOp doc patron, s => update_loan now reservationPeriod doc patron s

/-- A bounded license whose free slots do not exceed its concurrency. -/
def licenseConcBounded (l : License) : Bool :=
  match l.terms_concurrency with
  | some c => decide (l.checkouts_available ≤ c)
  | none => false

/-- A license's counters are internally consistent and bounded: its
concurrency is bounded and `checkouts_available` exceeds neither the
concurrency nor the remaining lifetime checkouts. -/
def licenseSane (l : License) : Bool :=
  licenseConcBounded l &&
  (match l.checkouts_left with
   | some k => decide (l.checkouts_available ≤ k)
   | none => true)

/-- Well-formedness of a bounded pool at time `now`: every license is
bounded and sane, existing reservations are backed by free license
capacity, every hold was placed strictly in the past, and the stored
aggregates agree with recomputation (the spec's single-source-of-truth
requirement, section 3). -/
def PoolWF (now : Int) (s : PoolState) : Prop :=
  (∀ l ∈ s.licenses, licenseSane l = true) ∧
  reservedHoldCount now s.holds ≤ availableRaw now s.licenses ∧
  (∀ h ∈ s.holds, h.start < now) ∧
  s.licenses_owned = ownedTotal now s.licenses ∧
  s.licenses_available = availableRaw now s.licenses - reservedHoldCount now s.holds ∧
  s.licenses_reserved = reservedHoldCount now s.holds ∧
  s.patrons_in_hold_queue = activeHoldCount now s.holds

/-- The aggregate soundness of a pool state: availability plus
reservations never exceed ownership, and the reserved holds on record
are covered by `licenses_reserved`. -/
def PoolAgg (now : Int) (s : PoolState) : Prop :=
  s.licenses_available + s.licenses_reserved ≤ s.licenses_owned ∧
  reservedHoldCount now s.holds ≤ s.licenses_reserved

/-- The density property asserted by the spec for stored hold rows: every
non-expired queued hold's position is one more than the number of
non-expired queued holds that started earlier. -/
def queuedDense (now : Int) (hs : List Hold) : Bool :=
  hs.all (fun h => !holdQueued now h ||
    h.position == 1 + hs.countP (fun h2 => holdQueued now h2 && decide (h2.start < h.start)))

/-- Build a non-open-access pool state. -/
def mkPool (ls : List License) (los : List Loan) (hs : List Hold)
    (ow av rs pq : Nat) : PoolState :=
  ⟨false, ls, los, hs, ow, av, rs, pq⟩

/-- A status document registering a successful checkout: ready, with a
self link and a far-future rights window. -/
def docReady : StatusDoc := ⟨.ready, some "self", none, some 6⟩

/-- A status document for an active loan carrying a return link. -/
def docReturnable : StatusDoc := ⟨.ready, some "self", some "return", none⟩

/-- A status document reporting the loan returned. -/
def docReturned : StatusDoc := ⟨.returned, none, none, none⟩

/-- A status document reporting the loan revoked (no self link). -/
def docRevoked : StatusDoc := ⟨.revoked, none, none, none⟩

/-- A pristine pool with three one-copy licenses. -/
def tracePool : PoolState :=
  mkPool [⟨1, none, some 1, none⟩, ⟨1, none, some 1, none⟩, ⟨1, none, some 1, none⟩]
    [] [] 3 3 0 0

/-- The pool state reached from `tracePool` by three checkouts (time 0),
three holds placed at times 1, 2, 3 (receiving positions 1, 2, 3), and
two checkins at times 4 and 5, each of which promotes the earliest
queued hold; the hold of patron 6 remains queued at its stored
position 3. -/
def traceFinal : PoolState :=
  applyOp 5 3 6 (.checkinOp docReturnable docReturned 2)
    (applyOp 4 3 6 (.checkinOp docReturnable docReturned 1)
      (applyOp 3 3 6 (.placeHoldOp none 6)
        (applyOp 2 3 6 (.placeHoldOp none 5)
          (applyOp 1 3 6 (.placeHoldOp none 4)
            (applyOp 0 3 6 (.checkoutOp docReady 3)
              (applyOp 0 3 6 (.checkoutOp docReady 2)
                (applyOp 0 3 6 (.checkoutOp docReady 1) tracePool)))))))

/-- A pool configuration for hold-end-date estimation: two owned copies,
two active loans ending at times 1 and 100, no reserved holds, and one
queued hold that started at time -3. -/
def estPool : PoolState :=
  mkPool [⟨0, none, some 1, none⟩, ⟨0, none, some 1, none⟩]
    [⟨11, 0, -1, some 1⟩, ⟨12, 1, -1, some 100⟩]
    [⟨21, -3, none, 1⟩] 2 0 0 3

/-- The same configuration as `estPool` with a second queued hold
(started at time -2) ahead of the hold under estimation. -/
def estPool2 : PoolState :=
  mkPool estPool.licenses estPool.loans
    [⟨21, -3, none, 1⟩, ⟨22, -2, none, 2⟩] 2 0 0 3

/-- A pool with one active license whose only copy is loaned out to
patron 9: no license is usable, but the pool is not out of licenses. -/
def loanedOutPool : PoolState :=
  mkPool [⟨0, none, some 1, none⟩] [⟨9, 0, -1, some 99⟩] [] 1 0 0 0

/-- A pool with one license with a single lifetime checkout remaining
(`checkouts_left = 1`). -/
def lastLeftPool : PoolState :=
  mkPool [⟨1, some 1, some 1, none⟩] [] [] 1 1 0 0

/-- A well-formed single-license pool used as a concrete witness. -/
def witnessPool : PoolState :=
  mkPool [⟨1, some 2, some 2, none⟩] [] [] 2 1 0 0

/-- A well-formed pool with one freed copy and one queued hold, used as
a concrete witness for the promotion step. -/
def promoWitnessPool : PoolState :=
  mkPool [⟨1, none, some 1, none⟩] [] [⟨4, -1, none, 1⟩] 1 1 0 1

/-- An open-access pool holding a loan row for patron 1. -/
def openAccessPool : PoolState :=
  ⟨true, [], [⟨1, 0, 0, none⟩], [], 0, 0, 0, 0⟩

/-- An estimation pool whose release events all fall within one
reservation-plus-loan cycle of now: two active loans ending at times 1
and 5, two queued holds started at times -3 and -2. -/
def c4Pool : PoolState :=
  mkPool [⟨0, none, some 1, none⟩, ⟨0, none, some 1, none⟩]
    [⟨11, 0, -1, some 1⟩, ⟨12, 1, -1, some 5⟩]
    [⟨21, -3, none, 1⟩, ⟨22, -2, none, 2⟩] 2 0 0 2

/-- A pool whose single license has expired. -/
def expiredPool : PoolState :=
  mkPool [⟨1, none, some 1, some (-1)⟩] [] [] 0 0 0 0

/-- A pool with an active loan row for patron 1 backed by its single
license. -/
def loanPool : PoolState :=
  mkPool [⟨0, none, some 1, none⟩] [⟨1, 0, -1, some 9⟩] [] 1 0 0 0

end ODL2

namespace ODL2

/-! ### Basic facts about hold predicates and promotion -/

theorem promoteHold_not_queued (now R : Int) (h : Hold) :
    holdQueued now (promoteHold now R h) = false := by
  simp [holdQueued, promoteHold]

theorem promoteHold_reserved (now R : Int) (h : Hold) (hR : 0 < R) :
    holdReserved now (promoteHold now R h) = true := by
  simp [holdReserved, promoteHold, holdActive, holdExpired]
  omega

theorem promoteHold_active (now R : Int) (h : Hold) (hR : 0 < R) :
    holdActive now (promoteHold now R h) = true := by
  simp [promoteHold, holdActive, holdExpired]
  omega

theorem holdQueued_not_reserved (now : Int) (h : Hold) (hq : holdQueued now h = true) :
    holdReserved now h = false := by
  simp [holdQueued, holdReserved] at *
  omega

theorem holdQueued_active (now : Int) (h : Hold) (hq : holdQueued now h = true) :
    holdActive now h = true := by
  simp [holdQueued] at hq
  exact hq.2

theorem length_promoteOne (now R : Int) (hs : List Hold) :
    (promoteOne now R hs).length = hs.length := by
  induction hs with
  | nil => rfl
  | cons h t ih =>
    by_cases hm : isMinQueued now h t = true
    · simp [promoteOne, hm]
    · simp [promoteOne, hm, ih]

theorem promoteOne_no_queued (now R : Int) (hs : List Hold)
    (hq : queuedActiveCount now hs = 0) : promoteOne now R hs = hs := by
  induction hs with
  | nil => rfl
  | cons h t ih =>
    rw [queuedActiveCount, List.countP_cons] at hq
    have hh : holdQueued now h = false := by
      cases hhq : holdQueued now h with
      | false => rfl
      | true => simp [hhq] at hq
    have ht : queuedActiveCount now t = 0 := by
      rw [queuedActiveCount]
      omega
    have hm : isMinQueued now h t = false := by
      simp [isMinQueued, hh]
    simp [promoteOne, hm, ih ht]

theorem isMinQueued_false_queued (now : Int) (h : Hold) (t : List Hold)
    (hq : holdQueued now h = true) (hm : isMinQueued now h t = false) :
    ∃ h2 ∈ t, holdQueued now h2 = true ∧ h2.start < h.start := by
  rw [isMinQueued, hq, Bool.true_and] at hm
  rw [List.all_eq_false] at hm
  rcases hm with ⟨h2, hmem, hprop⟩
  refine ⟨h2, hmem, ?_⟩
  cases hq2 : holdQueued now h2 with
  | false => simp [hq2] at hprop
  | true =>
    simp [hq2] at hprop
    exact ⟨rfl, hprop⟩


theorem reservedHoldCount_cons (now : Int) (h : Hold) (t : List Hold) :
    reservedHoldCount now (h :: t) =
      reservedHoldCount now t + (if holdReserved now h = true then 1 else 0) := by
  simp [reservedHoldCount, List.countP_cons]

theorem queuedActiveCount_cons (now : Int) (h : Hold) (t : List Hold) :
    queuedActiveCount now (h :: t) =
      queuedActiveCount now t + (if holdQueued now h = true then 1 else 0) := by
  simp [queuedActiveCount, List.countP_cons]

theorem activeHoldCount_cons (now : Int) (h : Hold) (t : List Hold) :
    activeHoldCount now (h :: t) =
      activeHoldCount now t + (if holdActive now h = true then 1 else 0) := by
  simp [activeHoldCount, List.countP_cons]

theorem promoteOne_counts (now R : Int) (hR : 0 < R) (hs : List Hold)
    (hq : 0 < queuedActiveCount now hs) :
    reservedHoldCount now (promoteOne now R hs) = reservedHoldCount now hs + 1 ∧
    queuedActiveCount now (promoteOne now R hs) + 1 = queuedActiveCount now hs ∧
    activeHoldCount now (promoteOne now R hs) = activeHoldCount now hs := by
  induction hs with
  | nil => simp [queuedActiveCount] at hq
  | cons h t ih =>
    by_cases hm : isMinQueued now h t = true
    · have hhq : holdQueued now h = true := by
        have hm2 := hm
        rw [isMinQueued, Bool.and_eq_true] at hm2
        exact hm2.1
      have hstep : promoteOne now R (h :: t) = promoteHold now R h :: t := by
        simp [promoteOne, hm]
      rw [hstep, reservedHoldCount_cons, reservedHoldCount_cons,
        queuedActiveCount_cons, queuedActiveCount_cons,
        activeHoldCount_cons, activeHoldCount_cons,
        promoteHold_reserved now R h hR, promoteHold_not_queued now R h,
        promoteHold_active now R h hR,
        holdQueued_not_reserved now h hhq, hhq, holdQueued_active now h hhq]
      simp
    · have hstep : promoteOne now R (h :: t) = h :: promoteOne now R t := by
        simp [promoteOne, hm]
      have hqt : 0 < queuedActiveCount now t := by
        by_cases hhq : holdQueued now h = true
        · rcases isMinQueued_false_queued now h t hhq (by simpa using hm) with
            ⟨h2, hmem, hq2, _⟩
          rw [queuedActiveCount, List.countP_pos_iff]
          exact ⟨h2, hmem, hq2⟩
        · rw [queuedActiveCount_cons] at hq
          simp only [Bool.not_eq_true] at hhq
          simp [hhq] at hq
          exact hq
      rcases ih hqt with ⟨h1, h2, h3⟩
      rw [hstep, reservedHoldCount_cons, reservedHoldCount_cons,
        queuedActiveCount_cons, queuedActiveCount_cons,
        activeHoldCount_cons, activeHoldCount_cons]
      omega

theorem promoteOne_spec (now R : Int) (hs : List Hold)
    (hq : 0 < queuedActiveCount now hs) :
    ∃ i, i < hs.length ∧
      (∀ j, j ≠ i → (promoteOne now R hs)[j]? = hs[j]?) ∧
      ∃ h, hs[i]? = some h ∧ holdQueued now h = true ∧
        (promoteOne now R hs)[i]? = some (promoteHold now R h) ∧
        ∀ h2 ∈ hs, holdQueued now h2 = true → h.start ≤ h2.start := by
  induction hs with
  | nil => simp [queuedActiveCount] at hq
  | cons h t ih =>
    by_cases hm : isMinQueued now h t = true
    · have hhq : holdQueued now h = true := by
        have hm2 := hm
        rw [isMinQueued, Bool.and_eq_true] at hm2
        exact hm2.1
      have hall : ∀ h2 ∈ t, (!holdQueued now h2 || decide (h.start ≤ h2.start)) = true := by
        have hm2 := hm
        rw [isMinQueued, Bool.and_eq_true, List.all_eq_true] at hm2
        exact hm2.2
      have hstep : promoteOne now R (h :: t) = promoteHold now R h :: t := by
        simp [promoteOne, hm]
      refine ⟨0, by simp, ?_, h, by simp, hhq, ?_, ?_⟩
      · intro j hj
        rcases j with _ | j'
        · exact absurd rfl hj
        · rw [hstep, List.getElem?_cons_succ, List.getElem?_cons_succ]
      · rw [hstep]
        simp
      · intro h2 hmem hq2
        rcases List.mem_cons.mp hmem with heq | hmt
        · rw [heq]
        · have := hall h2 hmt
          rw [hq2] at this
          simpa using this
    · have hstep : promoteOne now R (h :: t) = h :: promoteOne now R t := by
        simp [promoteOne, hm]
      have next : 0 < queuedActiveCount now t →
          ∃ i, i < (h :: t).length ∧
            (∀ j, j ≠ i → (promoteOne now R (h :: t))[j]? = (h :: t)[j]?) ∧
            ∃ hh, (h :: t)[i]? = some hh ∧ holdQueued now hh = true ∧
              (promoteOne now R (h :: t))[i]? = some (promoteHold now R hh) ∧
              ∀ h2 ∈ t, holdQueued now h2 = true → hh.start ≤ h2.start := by
        intro hqt
        rcases ih hqt with ⟨i, hi, hunch, hh, hsome, hhq2, hpro, hmin⟩
        refine ⟨i + 1, by simpa using Nat.succ_lt_succ hi, ?_, hh, ?_, hhq2, ?_, hmin⟩
        · intro j hj
          rcases j with _ | j'
          · rw [hstep]
            simp
          · rw [hstep, List.getElem?_cons_succ, List.getElem?_cons_succ]
            exact hunch j' (fun hc => hj (by rw [hc]))
        · rw [List.getElem?_cons_succ]
          exact hsome
        · rw [hstep, List.getElem?_cons_succ]
          exact hpro
      by_cases hhq : holdQueued now h = true
      · rcases isMinQueued_false_queued now h t hhq (by simpa using hm) with
          ⟨hw, hwmem, hwq, hwlt⟩
        have hqt : 0 < queuedActiveCount now t := by
          rw [queuedActiveCount, List.countP_pos_iff]
          exact ⟨hw, hwmem, hwq⟩
        rcases next hqt with ⟨i, hi, hunch, hh, hsome, hhq2, hpro, hmin⟩
        refine ⟨i, hi, hunch, hh, hsome, hhq2, hpro, ?_⟩
        intro h2 hmem hq2
        rcases List.mem_cons.mp hmem with heq | hmt
        · have hle := hmin hw hwmem hwq
          rw [heq]
          exact le_trans hle (le_of_lt hwlt)
        · exact hmin h2 hmt hq2
      · have hqt : 0 < queuedActiveCount now t := by
          rw [queuedActiveCount_cons] at hq
          simp only [Bool.not_eq_true] at hhq
          simp [hhq] at hq
          exact hq
        rcases next hqt with ⟨i, hi, hunch, hh, hsome, hhq2, hpro, hmin⟩
        refine ⟨i, hi, hunch, hh, hsome, hhq2, hpro, ?_⟩
        intro h2 hmem hq2
        rcases List.mem_cons.mp hmem with heq | hmt
        · rw [heq] at hq2
          rw [hq2] at hhq
          exact absurd rfl hhq
        · exact hmin h2 hmt hq2

theorem mem_of_getElemOpt {α : Type} {l : List α} {n : Nat} {a : α}
    (h : l[n]? = some a) : a ∈ l := by
  have hn : n < l.length := by
    by_contra hc
    rw [List.getElem?_eq_none (Nat.le_of_not_lt hc)] at h
    cases h
  rw [List.getElem?_eq_getElem hn] at h
  cases h
  exact List.getElem_mem hn

theorem promoteN_counts (now R : Int) (hR : 0 < R) :
    ∀ (fuel : Nat) (hs : List Hold),
      reservedHoldCount now (promoteN now R fuel hs) =
        reservedHoldCount now hs + min fuel (queuedActiveCount now hs) ∧
      queuedActiveCount now (promoteN now R fuel hs) =
        queuedActiveCount now hs - min fuel (queuedActiveCount now hs) ∧
      activeHoldCount now (promoteN now R fuel hs) = activeHoldCount now hs ∧
      (promoteN now R fuel hs).length = hs.length := by
  intro fuel
  induction fuel with
  | zero =>
    intro hs
    simp [promoteN]
  | succ f ih =>
    intro hs
    by_cases hz : queuedActiveCount now hs = 0
    · simp [promoteN, hz]
    · have hq : 0 < queuedActiveCount now hs := Nat.pos_of_ne_zero hz
      have hstep : promoteN now R (f + 1) hs = promoteN now R f (promoteOne now R hs) := by
        simp [promoteN, hz]
      rcases promoteOne_counts now R hR hs hq with ⟨c1, c2, c3⟩
      rcases ih (promoteOne now R hs) with ⟨i1, i2, i3, i4⟩
      rw [hstep]
      refine ⟨by omega, by omega, by omega, ?_⟩
      rw [i4, length_promoteOne]

theorem promoteN_spec (now R : Int) :
    ∀ (fuel : Nat) (hs : List Hold) (j : Nat),
      (promoteN now R fuel hs)[j]? = hs[j]? ∨
      ∃ h, hs[j]? = some h ∧ holdQueued now h = true ∧
        (promoteN now R fuel hs)[j]? = some (promoteHold now R h) ∧
        ∀ (j2 : Nat) (h2 : Hold), (promoteN now R fuel hs)[j2]? = some h2 →
          holdQueued now h2 = true → h.start ≤ h2.start := by
  intro fuel
  induction fuel with
  | zero =>
    intro hs j
    left
    simp [promoteN]
  | succ f ih =>
    intro hs j
    by_cases hz : queuedActiveCount now hs = 0
    · left
      simp [promoteN, hz]
    · have hq : 0 < queuedActiveCount now hs := Nat.pos_of_ne_zero hz
      have hstep : promoteN now R (f + 1) hs = promoteN now R f (promoteOne now R hs) := by
        simp [promoteN, hz]
      rcases promoteOne_spec now R hs hq with ⟨i, hi, hunch, hsel, hsome, hselq, hpro, hmin⟩
      have hback : ∀ (j2 : Nat) (h2 : Hold), (promoteN now R (f + 1) hs)[j2]? = some h2 →
          holdQueued now h2 = true → hs[j2]? = some h2 := by
        intro j2 h2 hfin hq2
        rw [hstep] at hfin
        rcases ih (promoteOne now R hs) j2 with hsame | ⟨h3, _, _, hpro3, _⟩
        · rw [hsame] at hfin
          by_cases hji : j2 = i
          · rw [hji] at hfin
            rw [hfin] at hpro
            have hcontr := promoteHold_not_queued now R hsel
            rw [← Option.some_inj.mp hpro] at hcontr
            rw [hq2] at hcontr
            cases hcontr
          · rw [hunch j2 hji] at hfin
            exact hfin
        · rw [hpro3] at hfin
          have hcontr := promoteHold_not_queued now R h3
          rw [← Option.some_inj.mp hfin] at hq2
          rw [hq2] at hcontr
          cases hcontr
      by_cases hji : j = i
      · right
        rw [hji]
        refine ⟨hsel, hsome, hselq, ?_, ?_⟩
        · rw [hstep]
          rcases ih (promoteOne now R hs) i with hsame | ⟨h3, hsome3, hq3, _, _⟩
          · rw [hsame]
            exact hpro
          · rw [hpro] at hsome3
            have hcontr := promoteHold_not_queued now R hsel
            rw [← Option.some_inj.mp hsome3] at hq3
            rw [hq3] at hcontr
            cases hcontr
        · intro j2 h2 hfin hq2
          exact hmin h2 (mem_of_getElemOpt (hback j2 h2 hfin hq2)) hq2
      · rcases ih (promoteOne now R hs) j with hsame | ⟨h3, hsome3, hq3, hpro3, hmin3⟩
        · left
          rw [hstep, hsame]
          exact hunch j hji
        · right
          refine ⟨h3, ?_, hq3, ?_, ?_⟩
          · rw [← hunch j hji]
            exact hsome3
          · rw [hstep]
            exact hpro3
          · intro j2 h2 hfin hq2
            rw [hstep] at hfin
            exact hmin3 j2 h2 hfin hq2

/-! ### Aggregate recomputation lemmas -/

theorem availableRaw_cons (now : Int) (l : License) (t : List License) :
    availableRaw now (l :: t) =
      (if licenseActive now l = true then l.checkouts_available else 0) +
        availableRaw now t := by
  simp [availableRaw]

theorem ownedTotal_cons (now : Int) (l : License) (t : List License) :
    ownedTotal now (l :: t) =
      (if licenseActive now l = true then l.terms_concurrency.getD 1 else 0) +
        ownedTotal now t := by
  simp [ownedTotal]

theorem availableRaw_le_ownedTotal (now : Int) (ls : List License)
    (hb : ∀ l ∈ ls, licenseConcBounded l = true) :
    availableRaw now ls ≤ ownedTotal now ls := by
  induction ls with
  | nil => simp [availableRaw, ownedTotal]
  | cons l t ih =>
    have hl : licenseConcBounded l = true := hb l (List.mem_cons_self l t)
    have ht : availableRaw now t ≤ ownedTotal now t :=
      ih (fun x hx => hb x (List.mem_cons_of_mem l hx))
    rw [availableRaw_cons, ownedTotal_cons]
    have hcontrib : (if licenseActive now l = true then l.checkouts_available else 0) ≤
        (if licenseActive now l = true then l.terms_concurrency.getD 1 else 0) := by
      by_cases ha : licenseActive now l = true
      · rw [if_pos ha, if_pos ha]
        rw [licenseConcBounded] at hl
        cases hc : l.terms_concurrency with
        | none =>
          rw [hc] at hl
          cases hl
        | some c =>
          rw [hc] at hl
          simp at hl
          simpa [hc] using hl
      · rw [if_neg ha, if_neg ha]
    omega

theorem sum_map_set {α : Type} (f : α → Nat) :
    ∀ (ls : List α) (i : Nat) (a x : α), ls[i]? = some a →
      ((ls.set i x).map f).sum + f a = (ls.map f).sum + f x := by
  intro ls
  induction ls with
  | nil =>
    intro i a x h
    simp at h
  | cons hd t ih =>
    intro i a x h
    rcases i with _ | i'
    · rw [List.getElem?_cons_zero] at h
      rw [Option.some_inj] at h
      rw [← h]
      simp [List.set]
      omega
    · rw [List.getElem?_cons_succ] at h
      have := ih i' a x h
      simp only [List.set, List.map_cons, List.sum_cons]
      omega

theorem availableRaw_set (now : Int) (ls : List License) (i : Nat) (a x : License)
    (h : ls[i]? = some a) :
    availableRaw now (ls.set i x) +
        (if licenseActive now a = true then a.checkouts_available else 0) =
      availableRaw now ls +
        (if licenseActive now x = true then x.checkouts_available else 0) := by
  simp only [availableRaw]
  exact sum_map_set _ ls i a x h

theorem sane_concBounded (l : License) (hs : licenseSane l = true) :
    licenseConcBounded l = true := by
  rw [licenseSane, Bool.and_eq_true] at hs
  exact hs.1

theorem apply_checkout_sane (l : License) (hs : licenseSane l = true) :
    licenseSane (apply_checkout l) = true := by
  rw [licenseSane, Bool.and_eq_true] at hs ⊢
  rcases hs with ⟨hc, hl⟩
  constructor
  · rw [licenseConcBounded] at hc ⊢
    cases hcc : l.terms_concurrency with
    | none =>
      rw [hcc] at hc
      cases hc
    | some c =>
      rw [hcc] at hc
      simp at hc
      simp [apply_checkout, hcc]
      omega
  · cases hleft : l.checkouts_left with
    | none => simp [apply_checkout, hleft]
    | some k =>
      rw [hleft] at hl
      simp at hl
      simp [apply_checkout, hleft]
      omega

theorem apply_checkin_concBounded (l : License) (hc : licenseConcBounded l = true) :
    licenseConcBounded (apply_checkin l) = true := by
  rw [licenseConcBounded] at hc ⊢
  cases hcc : l.terms_concurrency with
  | none =>
    rw [hcc] at hc
    cases hc
  | some c =>
    simp [apply_checkin, hcc]

theorem apply_checkin_active_eq (now : Int) (l : License) :
    licenseActive now (apply_checkin l) = licenseActive now l := by
  rw [licenseActive, licenseActive]
  simp [apply_checkin]

theorem apply_checkout_contrib (now : Int) (l : License)
    (hu : licenseUsable now l = true) (hsane : licenseSane l = true) :
    (if licenseActive now (apply_checkout l) = true
        then (apply_checkout l).checkouts_available else 0) + 1 =
      (if licenseActive now l = true then l.checkouts_available else 0) := by
  rw [licenseUsable, Bool.and_eq_true] at hu
  rcases hu with ⟨hact, hav⟩
  rw [if_pos hact]
  simp only [decide_eq_true_eq] at hav
  have hexp : (match (apply_checkout l).expires with
      | none => true
      | some e => decide (now < e)) =
      (match l.expires with
      | none => true
      | some e => decide (now < e)) := by
    simp [apply_checkout]
  cases hleft : l.checkouts_left with
  | none =>
    have hact2 : licenseActive now (apply_checkout l) = true := by
      rw [licenseActive] at hact ⊢
      rw [Bool.and_eq_true] at hact ⊢
      refine ⟨by rw [hexp]; exact hact.1, ?_⟩
      simp [apply_checkout, hleft]
    rw [if_pos hact2]
    simp [apply_checkout]
    omega
  | some k =>
    rcases Nat.lt_or_ge 1 k with hk | hk
    · have hact2 : licenseActive now (apply_checkout l) = true := by
        rw [licenseActive] at hact ⊢
        rw [Bool.and_eq_true] at hact ⊢
        refine ⟨by rw [hexp]; exact hact.1, ?_⟩
        simp [apply_checkout, hleft]
        omega
      rw [if_pos hact2]
      simp [apply_checkout]
      omega
    · have hk1 : k = 1 := by
        rw [licenseActive, Bool.and_eq_true] at hact
        have h2 := hact.2
        rw [hleft] at h2
        simp at h2
        omega
      have hact2 : licenseActive now (apply_checkout l) = false := by
        rw [licenseActive]
        simp [apply_checkout, hleft, hk1]
      rw [if_neg (by simp [hact2])]
      rw [licenseSane, Bool.and_eq_true] at hsane
      have hle := hsane.2
      rw [hleft, hk1] at hle
      simp at hle
      omega

theorem apply_checkin_contrib (now : Int) (l : License)
    (hc : licenseConcBounded l = true) :
    (if licenseActive now l = true then l.checkouts_available else 0) ≤
      (if licenseActive now (apply_checkin l) = true
        then (apply_checkin l).checkouts_available else 0) := by
  rw [apply_checkin_active_eq]
  by_cases ha : licenseActive now l = true
  · rw [if_pos ha, if_pos ha]
    rw [licenseConcBounded] at hc
    cases hcc : l.terms_concurrency with
    | none => simp [apply_checkin, hcc]
    | some c =>
      rw [hcc] at hc
      simp at hc
      simp [apply_checkin, hcc]
      omega
  · rw [if_neg ha, if_neg ha]

theorem countP_split {α : Type} (p g : α → Bool) (l : List α) :
    l.countP p = (l.filter g).countP p + (l.filter (fun a => !g a)).countP p := by
  rw [List.countP_filter, List.countP_filter]
  induction l with
  | nil => simp
  | cons hd t ih =>
    rw [List.countP_cons, List.countP_cons, List.countP_cons]
    cases hp : p hd <;> cases hg : g hd <;> simp [hp, hg] <;> omega

/-! ### The reconciliation step `update_licensepool` -/

theorem update_licensepool_fields (now R : Int) (s : PoolState) :
    (update_licensepool now R s).licenses = s.licenses ∧
    (update_licensepool now R s).loans = s.loans ∧
    (update_licensepool now R s).open_access = s.open_access ∧
    (update_licensepool now R s).holds =
      promoteN now R (availableRaw now s.licenses - reservedHoldCount now s.holds)
        s.holds ∧
    (update_licensepool now R s).licenses_owned = ownedTotal now s.licenses ∧
    (update_licensepool now R s).licenses_reserved =
      reservedHoldCount now (update_licensepool now R s).holds ∧
    (update_licensepool now R s).licenses_available =
      availableRaw now s.licenses -
        reservedHoldCount now (update_licensepool now R s).holds ∧
    (update_licensepool now R s).patrons_in_hold_queue =
      activeHoldCount now (update_licensepool now R s).holds :=
  ⟨rfl, rfl, rfl, rfl, rfl, rfl, rfl, rfl⟩

theorem update_licensepool_reserved_count (now R : Int) (hR : 0 < R) (s : PoolState) :
    reservedHoldCount now (update_licensepool now R s).holds =
      reservedHoldCount now s.holds +
        min (availableRaw now s.licenses - reservedHoldCount now s.holds)
          (queuedActiveCount now s.holds) :=
  (promoteN_counts now R hR
    (availableRaw now s.licenses - reservedHoldCount now s.holds) s.holds).1

theorem update_licensepool_active_count (now R : Int) (hR : 0 < R) (s : PoolState) :
    activeHoldCount now (update_licensepool now R s).holds =
      activeHoldCount now s.holds :=
  (promoteN_counts now R hR
    (availableRaw now s.licenses - reservedHoldCount now s.holds) s.holds).2.2.1

theorem update_licensepool_agg (now R : Int) (hR : 0 < R) (s : PoolState)
    (hb : ∀ l ∈ s.licenses, licenseConcBounded l = true)
    (hrc : reservedHoldCount now s.holds ≤ availableRaw now s.licenses) :
    PoolAgg now (update_licensepool now R s) ∧
    reservedHoldCount now (update_licensepool now R s).holds ≤
      availableRaw now s.licenses := by
  have hle := availableRaw_le_ownedTotal now s.licenses hb
  have hcount := update_licensepool_reserved_count now R hR s
  rcases update_licensepool_fields now R s with
    ⟨_, _, _, _, howned, hres, havail, _⟩
  have hrc2 : reservedHoldCount now (update_licensepool now R s).holds ≤
      availableRaw now s.licenses := by omega
  refine ⟨⟨?_, ?_⟩, hrc2⟩
  · rw [howned, hres, havail]
    omega
  · rw [hres]

theorem promoteN_mem_start (now R : Int) (fuel : Nat) (hs : List Hold) :
    ∀ h2 ∈ promoteN now R fuel hs, ∃ h ∈ hs, h2.start = h.start := by
  intro h2 hmem
  rcases List.mem_iff_getElem?.mp hmem with ⟨j, hj⟩
  rcases promoteN_spec now R fuel hs j with hsame | ⟨h, hsome, _, hpro, _⟩
  · rw [hj] at hsame
    exact ⟨h2, mem_of_getElemOpt hsame.symm, rfl⟩
  · rw [hj] at hpro
    have heq := Option.some_inj.mp hpro
    exact ⟨h, mem_of_getElemOpt hsome, by rw [heq, promoteHold]⟩

/-! ### License selection -/

theorem select_checkout_license_mem (now : Int) (ls : List License) (i : Nat)
    (h : select_checkout_license now ls = some i) :
    ∃ l, ls[i]? = some l ∧ licenseUsable now l = true := by
  rw [select_checkout_license] at h
  have husable : ∀ j ∈ (List.range ls.length).filter
      (fun i => match ls[i]? with
                | some l => licenseUsable now l
                | none => false),
      ∃ l, ls[j]? = some l ∧ licenseUsable now l = true := by
    intro j hj
    rcases List.mem_filter.mp hj with ⟨_, hpred⟩
    cases hLj : ls[j]? with
    | none =>
      rw [hLj] at hpred
      cases hpred
    | some l =>
      rw [hLj] at hpred
      exact ⟨l, rfl, hpred⟩
  cases hu : (List.range ls.length).filter
      (fun i => match ls[i]? with
                | some l => licenseUsable now l
                | none => false) with
  | nil =>
    rw [hu] at h
    cases h
  | cons i0 rest =>
    rw [hu] at h
    simp only [Option.some_inj] at h
    rw [← h]
    have hi0 : ∃ l, ls[i0]? = some l ∧ licenseUsable now l = true :=
      husable i0 (by rw [hu]; exact List.mem_cons_self i0 rest)
    refine List.foldlRecOn
      (motive := fun b => ∃ l, ls[b]? = some l ∧ licenseUsable now l = true)
      rest _ i0 hi0 ?_
    intro b hbP a hamem
    have hstep : (match ls[b]?, ls[a]? with
        | some lb, some lj => if betterLicense lj lb then a else b
        | _, _ => b) = b ∨
        (match ls[b]?, ls[a]? with
        | some lb, some lj => if betterLicense lj lb then a else b
        | _, _ => b) = a := by
      cases ls[b]? with
      | none => cases ls[a]? <;> simp
      | some lb =>
        cases ls[a]? with
        | none => simp
        | some la =>
          by_cases hbet : betterLicense la lb = true
          · right
            simp [hbet]
          · left
            simp [hbet]
    rcases hstep with he | he
    · rw [he]
      exact hbP
    · rw [he]
      exact husable a (by rw [hu]; exact List.mem_cons_of_mem i0 hamem)

/-! ### Hold-row removal -/

theorem removeHolds_reserved_le (now : Int) (p : Nat) (hs : List Hold) :
    reservedHoldCount now (removeHolds p hs) ≤ reservedHoldCount now hs :=
  List.Sublist.countP_le _ (List.filter_sublist hs)

theorem removeHolds_reserved_lt (now : Int) (p : Nat) (hs : List Hold) (h0 : Hold)
    (hfind : hs.find? (fun h => h.patron == p) = some h0)
    (hr : holdReserved now h0 = true) :
    reservedHoldCount now (removeHolds p hs) + 1 ≤ reservedHoldCount now hs := by
  have hmem := List.mem_of_find?_eq_some hfind
  have hpat : (h0.patron == p) = true := by
    simpa using List.find?_some hfind
  have hsplit := countP_split (fun h => holdReserved now h)
    (fun h => !(h.patron == p)) hs
  have hone : 0 < List.countP
      (fun a => holdReserved now a && !!(a.patron == p)) hs := by
    rw [List.countP_pos_iff]
    exact ⟨h0, hmem, by simp [hr, hpat]⟩
  rw [reservedHoldCount, removeHolds, List.countP_filter]
  rw [reservedHoldCount]
  rw [List.countP_filter, List.countP_filter] at hsplit
  omega

theorem removeLoan_sublist (p : Nat) (loans : List Loan) :
    (removeLoan p loans).Sublist loans :=
  List.eraseP_sublist loans

/-! ### The aggregate invariant across the core operations -/

theorem poolWF_agg (now : Int) (s : PoolState) (hwf : PoolWF now s) :
    PoolAgg now s := by
  rcases hwf with ⟨hsane, hrc, _, howned, havail, hres, _⟩
  have hb := availableRaw_le_ownedTotal now s.licenses
    (fun l hl => sane_concBounded l (hsane l hl))
  constructor
  · rw [howned, havail, hres]
    omega
  · rw [hres]

theorem apply_loan_removal_agg (now R : Int) (hR : 0 < R) (p : Nat) (lo : Loan)
    (s : PoolState) (hwf : PoolWF now s) :
    PoolAgg now (apply_loan_removal now R p lo s) := by
  rcases hwf with ⟨hsane, hrc, _, _, _, _, _⟩
  rw [apply_loan_removal]
  cases hidx : s.licenses[lo.licenseIndex]? with
  | none =>
    refine (update_licensepool_agg now R hR _ ?_ ?_).1
    · exact fun l hl => sane_concBounded l (hsane l hl)
    · exact hrc
  | some l =>
    refine (update_licensepool_agg now R hR _ ?_ ?_).1
    · intro x hx
      rcases List.mem_or_eq_of_mem_set hx with hmem | heq
      · exact sane_concBounded x (hsane x hmem)
      · rw [heq]
        exact apply_checkin_concBounded l
          (sane_concBounded l (hsane l (mem_of_getElemOpt hidx)))
    · have hset := availableRaw_set now s.licenses lo.licenseIndex l
        (apply_checkin l) hidx
      have hcontrib := apply_checkin_contrib now l
        (sane_concBounded l (hsane l (mem_of_getElemOpt hidx)))
      simp only []
      omega

theorem update_loan_agg (now R : Int) (hR : 0 < R) (doc : StatusDoc) (p : Nat)
    (s : PoolState) (hwf : PoolWF now s) :
    PoolAgg now (update_loan now R doc p s) := by
  rw [update_loan]
  split
  · exact poolWF_agg now s hwf
  · rename_i lo hfind
    by_cases hst : statusInactive doc.status = true
    · rw [if_pos hst]
      exact apply_loan_removal_agg now R hR p lo s hwf
    · rw [if_neg hst]
      exact poolWF_agg now s hwf

theorem checkin_agg (now R : Int) (hR : 0 < R) (d1 d2 : StatusDoc) (p : Nat)
    (s : PoolState) (hwf : PoolWF now s) :
    PoolAgg now (checkin now R d1 d2 p s).state := by
  rw [checkin]
  split
  · exact poolWF_agg now s hwf
  · rename_i lo hfind
    by_cases hoa : s.open_access = true
    · rw [if_pos hoa]
      exact poolWF_agg now s hwf
    · rw [if_neg hoa]
      by_cases hst : statusInactive d1.status = true
      · rw [if_pos hst]
        exact apply_loan_removal_agg now R hR p lo s hwf
      · rw [if_neg hst]
        split
        · exact poolWF_agg now s hwf
        · by_cases hst2 : statusInactive d2.status = true
          · rw [if_pos hst2]
            exact apply_loan_removal_agg now R hR p lo s hwf
          · rw [if_neg hst2]
            exact poolWF_agg now s hwf

theorem release_hold_agg (now R : Int) (hR : 0 < R) (p : Nat) (s : PoolState)
    (hwf : PoolWF now s) :
    PoolAgg now (release_hold now R p s).state := by
  rcases hwf with ⟨hsane, hrc, _, _, _, _, _⟩
  rw [release_hold]
  by_cases hany : (s.holds.any (fun h => h.patron == p)) = true
  · rw [if_pos hany]
    refine (update_licensepool_agg now R hR _ ?_ ?_).1
    · exact fun l hl => sane_concBounded l (hsane l hl)
    · exact le_trans (removeHolds_reserved_le now p s.holds) hrc
  · rw [if_neg hany]
    exact poolWF_agg now s ⟨hsane, hrc, by assumption, by assumption,
      by assumption, by assumption, by assumption⟩

theorem checkout_agg (now R : Int) (hR : 0 < R) (doc : StatusDoc) (p : Nat)
    (s : PoolState) (hwf : PoolWF now s) :
    PoolAgg now (checkout now R doc p s).state := by
  have hbase := poolWF_agg now s hwf
  rcases hwf with ⟨hsane, hrc, hstarts, howned, havail, hres, hpat⟩
  rw [checkout]
  by_cases hoa : s.open_access = true
  · rw [if_pos hoa]
    exact hbase
  · rw [if_neg hoa]
    by_cases hloan : (s.loans.any (fun lo => lo.patron == p)) = true
    · rw [if_pos hloan]
      exact hbase
    · rw [if_neg hloan]
      by_cases hnl : (s.licenses.all (fun l => !licenseActive now l)) = true
      · rw [if_pos hnl]
        exact hbase
      · rw [if_neg hnl]
        by_cases hguard : (!patronHoldOk now p s && (s.licenses_available == 0)) = true
        · rw [if_pos hguard]
          exact hbase
        · rw [if_neg hguard]
          split
          · exact hbase
          · rename_i i hsel
            by_cases hdoc : (!(doc.status == LoanStatus.ready ||
                doc.status == LoanStatus.active) || doc.selfLink.isNone) = true
            · rw [if_pos hdoc]
              exact hbase
            · rw [if_neg hdoc]
              split
              · exact hbase
              · rename_i l hLi
                rcases select_checkout_license_mem now s.licenses i hsel with
                  ⟨l2, hl2, hus⟩
                rw [hLi] at hl2
                rw [← Option.some_inj.mp hl2] at hus
                have hsanel : licenseSane l = true :=
                  hsane l (mem_of_getElemOpt hLi)
                have hset := availableRaw_set now s.licenses i l
                  (apply_checkout l) hLi
                have hcontrib := apply_checkout_contrib now l hus hsanel
                have hrcmut : reservedHoldCount now (removeHolds p s.holds) + 1 ≤
                    availableRaw now s.licenses := by
                  have hguard2 : (!patronHoldOk now p s &&
                      (s.licenses_available == 0)) = false := by
                    cases hgb : (!patronHoldOk now p s && (s.licenses_available == 0))
                    · rfl
                    · exact absurd hgb hguard
                  rcases Bool.and_eq_false_iff.mp hguard2 with hok | hav
                  · have hok2 : patronHoldOk now p s = true := by
                      simpa using hok
                    rw [patronHoldOk] at hok2
                    cases hfind : s.holds.find? (fun h => h.patron == p) with
                    | none =>
                      simp only [hfind] at hok2
                      cases hok2
                    | some h0 =>
                      simp only [hfind] at hok2
                      have hr0 : holdReserved now h0 = true := by
                        rw [holdReserved]
                        exact hok2
                      have hlt := removeHolds_reserved_lt now p s.holds h0 hfind hr0
                      omega
                  · have hne : s.licenses_available ≠ 0 := by
                      simpa using hav
                    have hle2 := removeHolds_reserved_le now p s.holds
                    omega
                refine (update_licensepool_agg now R hR _ ?_ ?_).1
                · intro x hx
                  rcases List.mem_or_eq_of_mem_set hx with hmem | heq
                  · exact sane_concBounded x (hsane x hmem)
                  · rw [heq]
                    exact sane_concBounded _ (apply_checkout_sane l hsanel)
                · simp only []
                  omega

theorem reservedHoldCount_append_one (now : Int) (hs : List Hold) (h : Hold) :
    reservedHoldCount now (hs ++ [h]) =
      reservedHoldCount now hs + (if holdReserved now h = true then 1 else 0) := by
  rw [reservedHoldCount, List.countP_append, reservedHoldCount]
  simp [List.countP_cons]

theorem holdReserved_succ (now : Int) (p2 : Nat) (st : Int) (e : Option Int)
    (k : Nat) : holdReserved now ⟨p2, st, e, k + 1⟩ = false := by
  rw [holdReserved]
  simp

theorem append_hold_agg (now : Int) (u : PoolState) (nh : Hold)
    (hA : availableRaw now u.licenses ≤ ownedTotal now u.licenses)
    (hbound : reservedHoldCount now (u.holds ++ [nh]) ≤ ownedTotal now u.licenses) :
    PoolAgg now
      (update_availability_from_licenses now { u with holds := u.holds ++ [nh] }) := by
  constructor
  · show (availableRaw now u.licenses - reservedHoldCount now (u.holds ++ [nh])) +
      reservedHoldCount now (u.holds ++ [nh]) ≤ ownedTotal now u.licenses
    omega
  · exact Nat.le_refl _

theorem place_hold_agg (now R L : Int) (hR : 0 < R) (holdLimit : Option Nat)
    (p : Nat) (s : PoolState) (hwf : PoolWF now s) :
    PoolAgg now (place_hold now R L holdLimit p s).state := by
  have hbase := poolWF_agg now s hwf
  rcases hwf with ⟨hsane, hrc, hstarts, howned, havail, hres, hpat⟩
  have hb : ∀ l ∈ s.licenses, licenseConcBounded l = true :=
    fun l hl => sane_concBounded l (hsane l hl)
  have hagg1 := update_licensepool_agg now R hR s hb hrc
  have hA := availableRaw_le_ownedTotal now s.licenses hb
  simp only [place_hold]
  by_cases hhl : (holdLimit == some 0) = true
  · rw [if_pos hhl]
    exact hbase
  · rw [if_neg hhl]
    by_cases hav :
        (decide (0 < (update_licensepool now R s).licenses_available)) = true
    · rw [if_pos hav]
      exact hagg1.1
    · rw [if_neg hav]
      by_cases hdup :
          ((update_licensepool now R s).holds.any (fun h => h.patron == p)) = true
      · rw [if_pos hdup]
        exact hagg1.1
      · rw [if_neg hdup]
        have hrc1 := hagg1.2
        have hstarts1 : ∀ h ∈ (update_licensepool now R s).holds, h.start < now := by
          intro h hmem
          rcases promoteN_mem_start now R _ s.holds h hmem with ⟨h0, hm0, heq0⟩
          rw [heq0]
          exact hstarts h0 hm0
        have hmono : reservedHoldCount now (update_licensepool now R s).holds ≤
            count_holds_before now (update_licensepool now R s).holds now := by
          rw [reservedHoldCount, count_holds_before]
          refine List.countP_mono_left ?_
          intro h hmem hpr
          rw [holdReserved, Bool.and_eq_true] at hpr
          have hlt : decide (h.start < now) = true := by
            simp only [decide_eq_true_eq]
            exact hstarts1 h hmem
          rw [hlt, hpr.2]
          rfl
        have howned1 : (update_licensepool now R s).licenses_owned =
            ownedTotal now s.licenses := (update_licensepool_fields now R s).2.2.2.2.1
        by_cases hcond : count_holds_before now (update_licensepool now R s).holds now <
            (update_licensepool now R s).licenses_owned -
              activeLoanCount now (update_licensepool now R s).loans
        · have hpos : update_hold_position now (update_licensepool now R s) now = 0 := by
            rw [update_hold_position, if_pos hcond]
          rw [hpos]
          refine append_hold_agg now (update_licensepool now R s) _ hA ?_
          rw [reservedHoldCount_append_one, (update_licensepool_fields now R s).1]
          rw [howned1] at hcond
          split
          · omega
          · omega
        · have hpos : update_hold_position now (update_licensepool now R s) now =
              count_holds_before now (update_licensepool now R s).holds now + 1 := by
            rw [update_hold_position, if_neg hcond]
          rw [hpos]
          refine append_hold_agg now (update_licensepool now R s) _ hA ?_
          rw [reservedHoldCount_append_one, (update_licensepool_fields now R s).1]
          split
          · rename_i hcontr
            rw [holdReserved_succ] at hcontr
            cases hcontr
          · omega

/-! ### Claim C1 -/

/-- C1: For every bounded license pool (modelled by `PoolWF`: bounded,
internally consistent licenses, reservations backed by capacity, holds
placed in the past, aggregates previously recomputed), after every core
operation — checkout, checkin, place_hold, release_hold,
update_licensepool, update_loan — the pool aggregates satisfy
`licenses_available + licenses_reserved ≤ licenses_owned`. -/
theorem c1_pool_invariant (now R L : Int) (op : CircOp) (s : PoolState)
    (hR : 0 < R) (hwf : PoolWF now s) :
    (applyOp now R L op s).licenses_available +
        (applyOp now R L op s).licenses_reserved ≤
      (applyOp now R L op s).licenses_owned := by
  cases op with
  | checkoutOp doc p => exact (checkout_agg now R hR doc p s hwf).1
  | checkinOp d1 d2 p => exact (checkin_agg now R hR d1 d2 p s hwf).1
  | placeHoldOp hl p => exact (place_hold_agg now R L hR hl p s hwf).1
  | releaseHoldOp p => exact (release_hold_agg now R hR p s hwf).1
  | updatePoolOp =>
    exact (update_licensepool_agg now R hR s
      (fun l hl => sane_concBounded l (hwf.1 l hl)) hwf.2.1).1.1
  | updateLoanOp doc p => exact (update_loan_agg now R hR doc p s hwf).1

/-- Witness for C1 at a concrete well-formed pool and operation. -/
theorem c1_pool_invariant_witness :
    (0 : Int) < 3 ∧ PoolWF 0 witnessPool ∧
    (applyOp 0 3 6 CircOp.updatePoolOp witnessPool).licenses_available +
        (applyOp 0 3 6 CircOp.updatePoolOp witnessPool).licenses_reserved ≤
      (applyOp 0 3 6 CircOp.updatePoolOp witnessPool).licenses_owned :=
  ⟨by decide, by unfold PoolWF; decide,
    c1_pool_invariant 0 3 6 CircOp.updatePoolOp witnessPool (by decide)
      (by unfold PoolWF; decide)⟩

/-! ### Claim C2 -/

/-- C2: On checkin — or any other capacity-freeing event — the pool is
rebalanced through `update_licensepool` (checkin frees its unit via
`apply_loan_removal`, which ends in `update_licensepool`).  When the
pool has non-expired queued holds and freed capacity
`f = availableRaw - reserved`, each freed unit promotes the earliest
non-expired queued hold instead of increasing `licenses_available`:
exactly `min f q` holds are promoted, each promoted hold gets
`position = 0` and `end = now + reservationPeriod` (default 3 days,
`STANDARD_DEFAULT_RESERVATION_PERIOD`), `licenses_reserved` grows by
the number of promotions, the un-absorbed remainder `f - min f q`
becomes `licenses_available`, and every promoted hold started no later
than every hold still queued. -/
theorem c2_checkin_promotes_earliest (now R : Int) (s : PoolState) (hR : 0 < R)
    (_hq : 0 < queuedActiveCount now s.holds)
    (_hf : 0 < availableRaw now s.licenses - reservedHoldCount now s.holds) :
    (update_licensepool now R s).licenses_reserved =
      reservedHoldCount now s.holds +
        min (availableRaw now s.licenses - reservedHoldCount now s.holds)
          (queuedActiveCount now s.holds) ∧
    (update_licensepool now R s).licenses_available =
      (availableRaw now s.licenses - reservedHoldCount now s.holds) -
        min (availableRaw now s.licenses - reservedHoldCount now s.holds)
          (queuedActiveCount now s.holds) ∧
    (update_licensepool now R s).patrons_in_hold_queue =
      activeHoldCount now s.holds ∧
    (∀ (j : Nat), (update_licensepool now R s).holds[j]? = s.holds[j]? ∨
      ∃ h, s.holds[j]? = some h ∧ holdQueued now h = true ∧
        (update_licensepool now R s).holds[j]? =
          some { h with position := 0, endDate := some (now + R) } ∧
        ∀ (j2 : Nat) (h2 : Hold),
          (update_licensepool now R s).holds[j2]? = some h2 →
          holdQueued now h2 = true → h.start ≤ h2.start) := by
  have hcount := update_licensepool_reserved_count now R hR s
  rcases update_licensepool_fields now R s with
    ⟨_, _, _, hholds, _, hres, havail, hpat⟩
  refine ⟨?_, ?_, ?_, ?_⟩
  · rw [hres, hcount]
  · rw [havail, hcount]
    omega
  · rw [hpat]
    exact update_licensepool_active_count now R hR s
  · intro j
    exact promoteN_spec now R
      (availableRaw now s.licenses - reservedHoldCount now s.holds) s.holds j

/-- Witness for C2 at a concrete pool with one freed unit and one queued
hold. -/
theorem c2_checkin_promotes_earliest_witness :
    (0 : Int) < 3 ∧ 0 < queuedActiveCount 0 promoWitnessPool.holds ∧
    0 < availableRaw 0 promoWitnessPool.licenses -
      reservedHoldCount 0 promoWitnessPool.holds ∧
    ((update_licensepool 0 3 promoWitnessPool).licenses_reserved =
      reservedHoldCount 0 promoWitnessPool.holds +
        min (availableRaw 0 promoWitnessPool.licenses -
            reservedHoldCount 0 promoWitnessPool.holds)
          (queuedActiveCount 0 promoWitnessPool.holds) ∧
    (update_licensepool 0 3 promoWitnessPool).licenses_available =
      (availableRaw 0 promoWitnessPool.licenses -
          reservedHoldCount 0 promoWitnessPool.holds) -
        min (availableRaw 0 promoWitnessPool.licenses -
            reservedHoldCount 0 promoWitnessPool.holds)
          (queuedActiveCount 0 promoWitnessPool.holds) ∧
    (update_licensepool 0 3 promoWitnessPool).patrons_in_hold_queue =
      activeHoldCount 0 promoWitnessPool.holds ∧
    (∀ (j : Nat), (update_licensepool 0 3 promoWitnessPool).holds[j]? =
        promoWitnessPool.holds[j]? ∨
      ∃ h, promoWitnessPool.holds[j]? = some h ∧ holdQueued 0 h = true ∧
        (update_licensepool 0 3 promoWitnessPool).holds[j]? =
          some { h with position := 0, endDate := some (0 + 3) } ∧
        ∀ (j2 : Nat) (h2 : Hold),
          (update_licensepool 0 3 promoWitnessPool).holds[j2]? = some h2 →
          holdQueued 0 h2 = true → h.start ≤ h2.start)) :=
  ⟨by decide, by decide, by decide,
    c2_checkin_promotes_earliest 0 3 promoWitnessPool (by decide) (by decide)
      (by decide)⟩

/-! ### Claim C3 -/

/-- C3 as stated is refuted: a pool state reached purely by core
operations (three checkouts, three place_holds which assign dense
positions 1, 2, 3, then two checkins whose promotions reserve the two
earliest holds) leaves the remaining non-expired queued hold at its
stored position 3 — positions of stored queued holds are not renumbered
on promotion, so the claimed dense ordering (no gaps) fails, while the
position-0 bound still holds. -/
theorem c3_counterexample :
    queuedDense 5 traceFinal.holds = false ∧
    queuedActiveCount 5 traceFinal.holds = 1 ∧
    reservedHoldCount 5 traceFinal.holds = 2 ∧
    traceFinal.licenses_reserved = 2 := by
  refine ⟨?_, ?_, ?_, ?_⟩ <;> decide

/-- C3 (amended): for every bounded well-formed pool, after every core
operation the number of non-expired position-0 holds never exceeds
`licenses_reserved`; the dense-ordering clause of the original claim
holds only for freshly computed positions, not for stored hold rows,
and is dropped. -/
theorem c3_reserved_holds_bounded (now R L : Int) (op : CircOp) (s : PoolState)
    (hR : 0 < R) (hwf : PoolWF now s) :
    reservedHoldCount now (applyOp now R L op s).holds ≤
      (applyOp now R L op s).licenses_reserved := by
  cases op with
  | checkoutOp doc p => exact (checkout_agg now R hR doc p s hwf).2
  | checkinOp d1 d2 p => exact (checkin_agg now R hR d1 d2 p s hwf).2
  | placeHoldOp hl p => exact (place_hold_agg now R L hR hl p s hwf).2
  | releaseHoldOp p => exact (release_hold_agg now R hR p s hwf).2
  | updatePoolOp =>
    exact (update_licensepool_agg now R hR s
      (fun l hl => sane_concBounded l (hwf.1 l hl)) hwf.2.1).1.2
  | updateLoanOp doc p => exact (update_loan_agg now R hR doc p s hwf).2

/-- Witness for the amended C3 at a concrete pool and operation. -/
theorem c3_reserved_holds_bounded_witness :
    (0 : Int) < 3 ∧ PoolWF 0 promoWitnessPool ∧
    reservedHoldCount 0
        (applyOp 0 3 6 CircOp.updatePoolOp promoWitnessPool).holds ≤
      (applyOp 0 3 6 CircOp.updatePoolOp promoWitnessPool).licenses_reserved :=
  ⟨by decide, by unfold PoolWF; decide,
    c3_reserved_holds_bounded 0 3 6 CircOp.updatePoolOp promoWitnessPool
      (by decide) (by unfold PoolWF; decide)⟩

/-! ### Estimate monotonicity machinery (claim C4) -/

theorem getD_mem_of_lt (l : List Int) (k : Nat) (d : Int) (hk : k < l.length) :
    l.getD k d ∈ l := by
  rw [List.getD_eq_getElem?_getD, List.getElem?_eq_getElem hk]
  exact List.getElem_mem hk

theorem sorted_getD_le (l : List Int) (hsort : List.Sorted (fun a b => a ≤ b) l)
    (k1 k2 : Nat) (h12 : k1 ≤ k2) (h2 : k2 < l.length) (d : Int) :
    l.getD k1 d ≤ l.getD k2 d := by
  have h1l : k1 < l.length := Nat.lt_of_le_of_lt h12 h2
  rw [List.getD_eq_getElem?_getD, List.getElem?_eq_getElem h1l,
    List.getD_eq_getElem?_getD, List.getElem?_eq_getElem h2]
  exact hsort.rel_get_of_le (show (⟨k1, h1l⟩ : Fin l.length) ≤ ⟨k2, h2⟩ from h12)

theorem holdEndEstimate_mono (es : List Int) (c lo : Int) (_hc : 0 < c)
    (hsort : List.Sorted (fun a b => a ≤ b) es)
    (hmem : ∀ e ∈ es, lo < e ∧ e ≤ lo + c)
    (r1 r2 : Nat) (h12 : r1 ≤ r2) (e1 e2 : Int)
    (h1 : holdEndEstimate es c r1 = some e1)
    (h2 : holdEndEstimate es c r2 = some e2) : e1 ≤ e2 := by
  cases es with
  | nil => simp [holdEndEstimate] at h1
  | cons a t =>
    have hn : 0 < (a :: t).length := by simp
    simp only [holdEndEstimate] at h1 h2
    have he1 := Option.some_inj.mp h1
    have he2 := Option.some_inj.mp h2
    have hstep : ∀ i : Nat,
        (fun i => (a :: t).getD (i % (a :: t).length) 0 +
          ((i / (a :: t).length : Nat) : Int) * c) i ≤
        (fun i => (a :: t).getD (i % (a :: t).length) 0 +
          ((i / (a :: t).length : Nat) : Int) * c) (i + 1) := by
      intro i
      simp only []
      have hdm := Nat.div_add_mod i (a :: t).length
      have hmlt : i % (a :: t).length < (a :: t).length := Nat.mod_lt i hn
      rcases Nat.lt_or_ge (i % (a :: t).length + 1) (a :: t).length with hA | hB
      · have hu : (i + 1) / (a :: t).length = i / (a :: t).length ∧
            (i + 1) % (a :: t).length = i % (a :: t).length + 1 :=
          (Nat.div_mod_unique hn).mpr
            ⟨by conv_rhs => rw [← hdm]
                ring, hA⟩
        rw [hu.1, hu.2]
        have hle := sorted_getD_le (a :: t) hsort (i % (a :: t).length)
          (i % (a :: t).length + 1) (Nat.le_succ _) hA 0
        linarith
      · have hmn : i % (a :: t).length + 1 = (a :: t).length :=
          Nat.le_antisymm (Nat.succ_le_of_lt hmlt) hB
        have key2 : 0 + (a :: t).length * (i / (a :: t).length + 1) = i + 1 := by
          have hmul : (a :: t).length * (i / (a :: t).length + 1) =
              (a :: t).length * (i / (a :: t).length) + (a :: t).length := by ring
          rw [Nat.zero_add, hmul]
          nth_rewrite 3 [← hmn]
          rw [← Nat.add_assoc, hdm]
        have hu : (i + 1) / (a :: t).length = i / (a :: t).length + 1 ∧
            (i + 1) % (a :: t).length = 0 :=
          (Nat.div_mod_unique hn).mpr ⟨key2, hn⟩
        rw [hu.1, hu.2]
        have hm1 := getD_mem_of_lt (a :: t) (i % (a :: t).length) 0 hmlt
        have hm2 := getD_mem_of_lt (a :: t) 0 0 hn
        rcases hmem _ hm1 with ⟨_, hub⟩
        rcases hmem _ hm2 with ⟨hlb, _⟩
        push_cast
        linarith
    have hmono := monotone_nat_of_le_succ hstep
    have := hmono (Nat.sub_le_sub_right h12 1)
    simp only [] at this
    rw [he1, he2] at this
    exact this

theorem releaseEvents_bounds (now L R : Int) (hR : 0 < R) (hL : 0 < L)
    (loanEnds : List Int) (resEnds : List (Option Int))
    (hlo : ∀ e ∈ loanEnds, e ≤ now + (R + L))
    (hre : ∀ d ∈ resEnds, ∀ x, d = some x → now < x ∧ x ≤ now + R) :
    ∀ e ∈ releaseEvents now L R loanEnds resEnds, now < e ∧ e ≤ now + (R + L) := by
  intro e he
  rw [releaseEvents, List.mem_insertionSort, List.mem_append] at he
  rcases he with h | h
  · rcases List.mem_filter.mp h with ⟨hm, hgt⟩
    exact ⟨by simpa using hgt, hlo e hm⟩
  · rcases List.mem_map.mp h with ⟨d, hd, rfl⟩
    cases d with
    | none =>
      simp only [Option.getD]
      constructor <;> linarith
    | some x =>
      rcases hre _ hd x rfl with ⟨hx1, hx2⟩
      simp only [Option.getD]
      constructor <;> linarith

theorem releaseEvents_sorted (now L R : Int) (loanEnds : List Int)
    (resEnds : List (Option Int)) :
    List.Sorted (fun a b => a ≤ b) (releaseEvents now L R loanEnds resEnds) := by
  rw [releaseEvents]
  exact List.sorted_insertionSort _ _

/-! ### Claim C4 -/

/-- C4 as stated is refuted: with two active loans ending at times 1 and
100 (the spread exceeding one reservation-plus-loan cycle of 9), the same
pool configuration — identical licenses, loans and reserved holds — gives
the hold at recomputed queue position 2 the estimate 100 and the hold at
the strictly later position 3 the earlier estimate 10: the wrap-around
walk is not monotone in the queue position. -/
theorem c4_counterexample :
    estPool2.licenses = estPool.licenses ∧
    estPool2.loans = estPool.loans ∧
    estPool2.licenses_reserved = estPool.licenses_reserved ∧
    update_hold_position 0 estPool (-2) = 2 ∧
    update_hold_position 0 estPool2 (-1) = 3 ∧
    update_hold_end_date 0 3 6 estPool (-2) 2 none = some 100 ∧
    update_hold_end_date 0 3 6 estPool2 (-1) 3 none = some 10 ∧
    ¬ (100 : Int) ≤ 10 := by
  refine ⟨rfl, rfl, rfl, by decide, by decide, rfl, rfl, by decide⟩

/-- C4 (amended): the estimated end date computed by
`update_hold_end_date` is monotonically non-decreasing in the recomputed
queue position provided every release event of the pool falls within one
reservation-plus-loan cycle of now: every active loan ends by
`now + (R + L)` and every reserved hold's deadline lies in
`(now, now + R]`.  (The original unconditional claim is refuted by
`c4_counterexample`: once the event spread exceeds one cycle the
wrap-around walk can assign a later position an earlier estimate.) -/
theorem c4_hold_estimate_monotone (now R L : Int) (s : PoolState)
    (st1 st2 : Int) (op1 op2 : Nat) (oe1 oe2 : Option Int) (e1 e2 : Int)
    (hR : 0 < R) (hL : 0 < L)
    (hloans : ∀ e ∈ activeLoanEnds now s.loans, e ≤ now + (R + L))
    (hres : ∀ d ∈ reservedHoldEnds now s.licenses_reserved s.holds,
      ∀ x, d = some x → now < x ∧ x ≤ now + R)
    (hp1 : update_hold_position now s st1 ≠ 0)
    (hp12 : update_hold_position now s st1 ≤ update_hold_position now s st2)
    (he1 : update_hold_end_date now R L s st1 op1 oe1 = some e1)
    (he2 : update_hold_end_date now R L s st2 op2 oe2 = some e2) :
    e1 ≤ e2 := by
  have hp2 : update_hold_position now s st2 ≠ 0 := by omega
  have hb1 : (update_hold_position now s st1 == 0) = false := by
    simpa using hp1
  have hb2 : (update_hold_position now s st2 == 0) = false := by
    simpa using hp2
  simp only [update_hold_end_date, hb1, hb2, Bool.false_eq_true, if_false] at he1 he2
  exact holdEndEstimate_mono _ (R + L) now (by linarith)
    (releaseEvents_sorted now L R _ _)
    (releaseEvents_bounds now L R hR hL _ _ hloans hres)
    (update_hold_position now s st1 - s.licenses_reserved)
    (update_hold_position now s st2 - s.licenses_reserved)
    (Nat.sub_le_sub_right hp12 _) e1 e2 he1 he2

/-- Witness for the amended C4: in `c4Pool` all release events lie
within one cycle and the estimates at positions 2 and 3 are ordered. -/
theorem c4_hold_estimate_monotone_witness :
    update_hold_end_date 0 3 6 c4Pool (-2) 2 none = some 5 ∧
    update_hold_end_date 0 3 6 c4Pool (-1) 3 none = some 10 ∧
    (5 : Int) ≤ 10 :=
  ⟨rfl, rfl,
    c4_hold_estimate_monotone 0 3 6 c4Pool (-2) (-1) 2 3 none none 5 10
      (by decide) (by decide) (by decide) (by simp [reservedHoldEnds, c4Pool, mkPool])
      (by decide) (by decide) (by decide) (by decide)⟩

/-! ### Claim C5 -/

/-- C5 as stated is refuted in its "exactly when" direction: in
`loanedOutPool` the single license is active but fully loaned out, so no
license of the pool is usable, yet checkout fails with
`NoAvailableCopies`, not `NoLicenses`.  (The second half of the claim
also fails for the same reason: after the last lifetime checkout is
consumed the license becomes inactive, which does yield `NoLicenses`,
but an unusable-yet-active license never does.) -/
theorem c5_counterexample :
    loanedOutPool.licenses.all (fun l => !licenseUsable 0 l) = true ∧
    (checkout 0 3 docReady 1 loanedOutPool).outcome =
      Except.error CircErr.NoAvailableCopies ∧
    (checkout 0 3 docReady 1 loanedOutPool).outcome ≠
      Except.error CircErr.NoLicenses := by
  refine ⟨by decide, rfl, fun h => ?_⟩
  have h2 : (Except.error CircErr.NoAvailableCopies : Except CircErr LoanInfo) =
      Except.error CircErr.NoLicenses := h
  exact CircErr.noConfusion (Except.error.inj h2)

/-- C5 (amended): for a non-open-access pool on which the patron has no
loan, checkout fails with `NoLicenses` exactly when every license of the
pool is *inactive* (expired or lifetime-exhausted); unusable-but-active
licenses (no free copies) lead to `NoAvailableCopies` instead.  In
particular a license whose last lifetime checkout was consumed is
inactive, so subsequent checkouts fail with `NoLicenses` when no other
active license remains. -/
theorem c5_no_licenses_iff (now R : Int) (doc : StatusDoc) (p : Nat)
    (s : PoolState) (hoa : s.open_access = false)
    (hnl : s.loans.any (fun lo => lo.patron == p) = false) :
    (checkout now R doc p s).outcome = Except.error CircErr.NoLicenses ↔
      s.licenses.all (fun l => !licenseActive now l) = true := by
  simp only [checkout, hoa, hnl, Bool.false_eq_true, if_false]
  by_cases hall : s.licenses.all (fun l => !licenseActive now l) = true
  · simp [hall]
  · simp only [hall, Bool.false_eq_true, if_false, iff_false]
    intro hout
    split at hout
    · simp at hout
    · split at hout
      · simp at hout
      · split at hout
        · simp at hout
        · split at hout
          · simp at hout
          · simp at hout

/-- Witness for the amended C5: in `expiredPool` every license is
inactive and checkout fails with `NoLicenses`. -/
theorem c5_no_licenses_iff_witness :
    (checkout 0 3 docReady 1 expiredPool).outcome =
      Except.error CircErr.NoLicenses :=
  (c5_no_licenses_iff 0 3 docReady 1 expiredPool rfl rfl).mpr (by decide)

/-! ### Round-trip machinery (claim C6) -/

theorem promoteN_nil (now R : Int) (fuel : Nat) : promoteN now R fuel [] = [] := by
  cases fuel <;> rfl

theorem update_licensepool_no_holds (now R : Int) (s : PoolState)
    (h : s.holds = []) :
    update_licensepool now R s = { s with
      holds := ([] : List Hold),
      licenses_owned := ownedTotal now s.licenses,
      licenses_available := availableRaw now s.licenses,
      licenses_reserved := 0,
      patrons_in_hold_queue := 0 } := by
  simp only [update_licensepool, h, promoteN_nil, update_availability_from_licenses]
  simp [reservedHoldCount, activeHoldCount]

theorem roundtrip_license (now : Int) (l : License)
    (hsane : licenseSane l = true)
    (hpos : 0 < l.checkouts_available)
    (hactive : licenseActive now l = true)
    (hleft : l.checkouts_left ≠ some 1) :
    apply_checkin (apply_checkout l) =
      { l with checkouts_left := l.checkouts_left.map (fun n => n - 1) } ∧
    licenseActive now
      { l with checkouts_left := l.checkouts_left.map (fun n => n - 1) } = true := by
  obtain ⟨av, left, tc, ex⟩ := l
  rw [licenseSane, licenseConcBounded, Bool.and_eq_true] at hsane
  cases tc with
  | none => exact absurd hsane.1 (by simp)
  | some c =>
    have hav_le : av ≤ c := by simpa using hsane.1
    constructor
    · simp only [apply_checkout, apply_checkin, License.mk.injEq, and_true,
        true_and, and_self]
      have h1 : av - 1 + 1 = av := by
        simp at hpos
        omega
      rw [h1]
      exact min_eq_left hav_le
    · rw [licenseActive] at hactive ⊢
      simp only [] at hactive ⊢
      cases left with
      | none => simpa using hactive
      | some k =>
        rw [Bool.and_eq_true] at hactive ⊢
        refine ⟨hactive.1, ?_⟩
        have hk : 0 < k := by simpa using hactive.2
        have hk1 : k ≠ 1 := by
          intro hkk
          exact hleft (by simp [hkk])
        simp only [Option.map]
        simpa using (by omega : 0 < k - 1)

theorem checkin_returns_unit (now R : Int) (p i : Nat) (ls : List License)
    (loans : List Loan) (lco : License) (nlo : Loan)
    (ow av rs pq : Nat)
    (hpat : nlo.patron = p) (hidx : nlo.licenseIndex = i)
    (hno : loans.find? (fun lo => lo.patron == p) = none)
    (hilen : i < ls.length) :
    checkin now R docReturnable docReturned p
        ⟨false, ls.set i lco, loans ++ [nlo], [], ow, av, rs, pq⟩ =
      ⟨{ open_access := false,
         licenses := ls.set i (apply_checkin lco),
         loans := loans,
         holds := ([] : List Hold),
         licenses_owned := ownedTotal now (ls.set i (apply_checkin lco)),
         licenses_available := availableRaw now (ls.set i (apply_checkin lco)),
         licenses_reserved := 0,
         patrons_in_hold_queue := 0 }, Except.ok (), 3⟩ := by
  have hfind2 : (loans ++ [nlo]).find? (fun lo => lo.patron == p) = some nlo := by
    rw [List.find?_append, hno]
    simp [List.find?_cons_of_pos, hpat]
  have hremove : removeLoan p (loans ++ [nlo]) = loans := by
    rw [removeLoan]
    rw [List.eraseP_append_right [nlo]
      (fun b hb => by simpa using List.find?_eq_none.mp hno b hb)]
    rw [List.eraseP_cons_of_pos (by simp [hpat])]
    simp
  have hget : (ls.set i lco)[nlo.licenseIndex]? = some lco := by
    rw [hidx]
    simp [List.getElem?_set_self, hilen]
  simp only [checkin, hfind2]
  rw [if_neg (by simp), if_neg (by decide)]
  show (if statusInactive docReturned.status = true then _ else _) = _
  rw [if_pos (by decide)]
  rw [hidx] at hget
  simp only [apply_loan_removal, hidx, hget, hremove]
  rw [List.set_set]
  rw [update_licensepool_no_holds _ _ _ rfl]

/-! ### Claim C6 -/

/-- C6 as stated is refuted: in `lastLeftPool` the single license has
`checkouts_left = 1`; checkout succeeds and consumes the last lifetime
checkout, making the license inactive, so the immediate checkin cannot
restore the pool's availability: `licenses_available` ends at 0, not at
its pre-checkout value 1, even though the license's own
`checkouts_available` is restored. -/
theorem c6_counterexample :
    lastLeftPool.licenses_available = 1 ∧
    (checkout 0 3 docReady 1 lastLeftPool).outcome =
      Except.ok (⟨some 0, some 6, some "self"⟩ : LoanInfo) ∧
    (checkin 0 3 docReturnable docReturned 1
        (checkout 0 3 docReady 1 lastLeftPool).state).outcome = Except.ok () ∧
    (checkin 0 3 docReturnable docReturned 1
        (checkout 0 3 docReady 1 lastLeftPool).state).state.licenses_available
      = 0 ∧
    (checkin 0 3 docReturnable docReturned 1
        (checkout 0 3 docReady 1 lastLeftPool).state).state.licenses[0]? =
      some ⟨1, some 0, some 1, none⟩ := by
  refine ⟨rfl, rfl, rfl, by decide, by decide⟩

/-- C6 (amended): for a well-formed pool with no hold queue, a
successful checkout followed immediately by a checkin by the same patron
returns the pool's `licenses_available` and the license's
`checkouts_available` to their pre-checkout values while the license's
`checkouts_left` (when bounded) is decremented by 1 — provided the
consumed checkout is not the license's last lifetime checkout
(`checkouts_left ≠ some 1`; the original unconditional claim is refuted
by `c6_counterexample`). -/
theorem c6_roundtrip (now R : Int) (p : Nat) (s : PoolState) (i : Nat)
    (l : License)
    (hwf : PoolWF now s)
    (hoa : s.open_access = false)
    (hholds : s.holds = [])
    (hnoloan : s.loans.find? (fun lo => lo.patron == p) = none)
    (hsel : select_checkout_license now s.licenses = some i)
    (hl : s.licenses[i]? = some l)
    (hleft : l.checkouts_left ≠ some 1)
    (hav : s.licenses_available ≠ 0) :
    (checkout now R docReady p s).outcome =
      Except.ok (⟨some now, some 6, some "self"⟩ : LoanInfo) ∧
    (checkin now R docReturnable docReturned p
        (checkout now R docReady p s).state).state.licenses_available =
      s.licenses_available ∧
    (checkin now R docReturnable docReturned p
        (checkout now R docReady p s).state).state.licenses[i]? =
      some { l with checkouts_left := l.checkouts_left.map (fun n => n - 1) } := by
  obtain ⟨l2, hl2, husable⟩ := select_checkout_license_mem now s.licenses i hsel
  rw [hl] at hl2
  injection hl2 with hleq
  subst hleq
  have hsane := hwf.1 l (mem_of_getElemOpt hl)
  rw [licenseUsable, Bool.and_eq_true] at husable
  have hactive : licenseActive now l = true := husable.1
  have hpos : 0 < l.checkouts_available := by simpa using husable.2
  have hany : s.loans.any (fun lo => lo.patron == p) = false := by
    rw [List.any_eq_false]
    intro x hx
    exact List.find?_eq_none.mp hnoloan x hx
  have hnall : s.licenses.all (fun l2 => !licenseActive now l2) = false := by
    rw [List.all_eq_false]
    exact ⟨l, mem_of_getElemOpt hl, by simp [hactive]⟩
  have hholdok : patronHoldOk now p s = false := by
    rw [patronHoldOk, hholds]
    rfl
  have hbav : (s.licenses_available == 0) = false := by simpa using hav
  have hguard : (!patronHoldOk now p s && s.licenses_available == 0) = false := by
    rw [hholdok, hbav]
    rfl
  have hco : checkout now R docReady p s =
      ⟨checkout_apply now R docReady p i l s,
        Except.ok ⟨some now, some 6, some "self"⟩, 1⟩ := by
    simp only [checkout, hoa, hany, hnall, hguard, hsel, hl, Bool.false_eq_true,
      if_false]
    rfl
  have hilen : i < s.licenses.length := (List.getElem?_eq_some_iff.mp hl).1
  have hu : checkout_apply now R docReady p i l s =
      ⟨false, s.licenses.set i (apply_checkout l),
        s.loans ++ [⟨p, i, now, some 6⟩], ([] : List Hold),
        ownedTotal now (s.licenses.set i (apply_checkout l)),
        availableRaw now (s.licenses.set i (apply_checkout l)), 0, 0⟩ := by
    rw [checkout_apply]
    rw [update_licensepool_no_holds _ _ _ (by simp [hholds, removeHolds])]
    simp [hholds, removeHolds, hoa, docReady]
  have hck := checkin_returns_unit now R p i s.licenses s.loans
    (apply_checkout l) ⟨p, i, now, some 6⟩
    (ownedTotal now (s.licenses.set i (apply_checkout l)))
    (availableRaw now (s.licenses.set i (apply_checkout l))) 0 0
    rfl rfl hnoloan hilen
  have hrt := roundtrip_license now l hsane hpos hactive hleft
  have hcontrib : availableRaw now
      (s.licenses.set i (apply_checkin (apply_checkout l))) =
      availableRaw now s.licenses := by
    have hset := availableRaw_set now s.licenses i l
      (apply_checkin (apply_checkout l)) hl
    rw [hrt.1] at hset ⊢
    rw [hactive, hrt.2] at hset
    simp only [if_true] at hset
    have hsame : ({ l with
        checkouts_left := l.checkouts_left.map (fun n => n - 1) } :
        License).checkouts_available = l.checkouts_available := rfl
    omega
  have hsavail : s.licenses_available = availableRaw now s.licenses := by
    have := hwf.2.2.2.2.1
    rw [this, hholds]
    simp [reservedHoldCount]
  refine ⟨by rw [hco], ?_, ?_⟩
  · rw [hco]
    show (checkin now R docReturnable docReturned p
      (checkout_apply now R docReady p i l s)).state.licenses_available =
      s.licenses_available
    rw [hu, hck]
    show availableRaw now (s.licenses.set i (apply_checkin (apply_checkout l))) =
      s.licenses_available
    rw [hcontrib, hsavail]
  · rw [hco]
    show (checkin now R docReturnable docReturned p
      (checkout_apply now R docReady p i l s)).state.licenses[i]? =
      some { l with checkouts_left := l.checkouts_left.map (fun n => n - 1) }
    rw [hu, hck]
    show (s.licenses.set i (apply_checkin (apply_checkout l)))[i]? =
      some { l with checkouts_left := l.checkouts_left.map (fun n => n - 1) }
    rw [hrt.1]
    simp [List.getElem?_set_self, hilen]

/-- Witness for the amended C6 at `witnessPool` (two lifetime checkouts
remaining): the round trip restores the pool's availability and the
license's free copies while decrementing `checkouts_left` to 1. -/
theorem c6_roundtrip_witness :
    (checkout 0 3 docReady 1 witnessPool).outcome =
      Except.ok (⟨some 0, some 6, some "self"⟩ : LoanInfo) ∧
    (checkin 0 3 docReturnable docReturned 1
        (checkout 0 3 docReady 1 witnessPool).state).state.licenses_available =
      witnessPool.licenses_available ∧
    (checkin 0 3 docReturnable docReturned 1
        (checkout 0 3 docReady 1 witnessPool).state).state.licenses[0]? =
      some ⟨1, some 1, some 2, none⟩ :=
  c6_roundtrip 0 3 1 witnessPool 0 ⟨1, some 2, some 2, none⟩
    (by unfold PoolWF; decide) rfl rfl rfl (by decide) (by decide) (by decide)
    (by decide)

/-! ### Claim C7 -/

/-- C7: for a non-open-access pool, checkin fails with `NotCheckedOut`
in exactly two cases: no local loan row exists for the patron, or the
remote status document reports the loan already returned/revoked
(`statusInactive`); and in the latter case the local loan row is
nevertheless deleted as part of the failing checkin. -/
theorem c7_not_checked_out (now R : Int) (d1 d2 : StatusDoc) (p : Nat)
    (s : PoolState) (hoa : s.open_access = false) :
    ((checkin now R d1 d2 p s).outcome = Except.error CircErr.NotCheckedOut ↔
      s.loans.find? (fun lo => lo.patron == p) = none ∨
        statusInactive d1.status = true) ∧
    (∀ lo, s.loans.find? (fun lo2 => lo2.patron == p) = some lo →
      statusInactive d1.status = true →
      (checkin now R d1 d2 p s).state.loans = removeLoan p s.loans) := by
  constructor
  · simp only [checkin]
    split
    · rename_i hfind
      simp [hfind]
    · rename_i lo hfind
      rw [if_neg (by simp [hoa])]
      by_cases hin : statusInactive d1.status = true
      · simp [hin]
      · have hb : statusInactive d1.status = false := by
          cases hst : statusInactive d1.status
          · rfl
          · exact absurd hst hin
        rw [if_neg hin]
        split
        · simp [hfind, hb]
        · split
          · simp [hfind, hb]
          · simp [hfind, hb]
  · intro lo hfind hin
    simp only [checkin, hfind, hoa, Bool.false_eq_true, if_false, hin, if_true]
    show (apply_loan_removal now R p lo s).loans = removeLoan p s.loans
    rw [apply_loan_removal]
    exact (update_licensepool_fields now R _).2.1

/-- Witness for C7: in `loanPool` patron 1 has a loan and the remote
document reports it revoked: checkin fails with `NotCheckedOut` and the
loan row is deleted. -/
theorem c7_not_checked_out_witness :
    (checkin 0 3 docRevoked docRevoked 1 loanPool).outcome =
      Except.error CircErr.NotCheckedOut ∧
    (checkin 0 3 docRevoked docRevoked 1 loanPool).state.loans =
      removeLoan 1 loanPool.loans := by
  have hfind : loanPool.loans.find? (fun lo2 => lo2.patron == 1) =
      some ⟨1, 0, -1, some 9⟩ := rfl
  exact ⟨(c7_not_checked_out 0 3 docRevoked docRevoked 1 loanPool rfl).1.mpr
      (Or.inr rfl),
    (c7_not_checked_out 0 3 docRevoked docRevoked 1 loanPool rfl).2
      ⟨1, 0, -1, some 9⟩ hfind rfl⟩

/-! ### Claim C8 -/

/-- C8: when the collection's hold limit is configured to 0, place_hold
fails with `HoldsNotPermitted` for every patron and every pool —
regardless of the pool's availability — and leaves the pool unchanged. -/
theorem c8_hold_limit_zero (now R L : Int) (p : Nat) (s : PoolState) :
    (place_hold now R L (some 0) p s).outcome =
      Except.error CircErr.HoldsNotPermitted ∧
    (place_hold now R L (some 0) p s).state = s :=
  ⟨rfl, rfl⟩

/-! ### Claim C9 -/

/-- C9: checkout is atomic on remote failure: whenever checkout fails
with `CannotLoan` (remote status not ready/active, or no self link), the
pool state — loans, holds, licenses and all aggregate counters — is
exactly the pre-checkout state. -/
theorem c9_cannot_loan_atomic (now R : Int) (doc : StatusDoc) (p : Nat)
    (s : PoolState)
    (h : (checkout now R doc p s).outcome = Except.error CircErr.CannotLoan) :
    (checkout now R doc p s).state = s := by
  simp only [checkout] at h
  repeat' split at h
  all_goals simp_all [checkout]
  all_goals repeat' split
  all_goals rfl

/-- Witness for C9: a revoked status document fails the checkout on
`witnessPool` with `CannotLoan` and leaves the pool unchanged. -/
theorem c9_cannot_loan_atomic_witness :
    (checkout 0 3 docRevoked 1 witnessPool).outcome =
      Except.error CircErr.CannotLoan ∧
    (checkout 0 3 docRevoked 1 witnessPool).state = witnessPool := by
  have h : (checkout 0 3 docRevoked 1 witnessPool).outcome =
      Except.error CircErr.CannotLoan := rfl
  exact ⟨h, c9_cannot_loan_atomic 0 3 docRevoked 1 witnessPool h⟩

/-! ### Claim C10 -/

/-- C10: for an open-access pool, checkout and checkin never contact the
remote License Status Client: checkout issues zero remote requests and
returns a LoanInfo whose start date, end date and external identifier
are all `none`, and checkin issues zero remote requests. -/
theorem c10_open_access_no_remote (now R : Int) (doc d1 d2 : StatusDoc)
    (p : Nat) (s : PoolState) (hoa : s.open_access = true) :
    (checkout now R doc p s).calls = 0 ∧
    (checkout now R doc p s).outcome =
      Except.ok (⟨none, none, none⟩ : LoanInfo) ∧
    (checkin now R d1 d2 p s).calls = 0 := by
  refine ⟨?_, ?_, ?_⟩
  · simp [checkout, hoa]
  · simp [checkout, hoa]
  · simp only [checkin]
    split
    · rfl
    · simp [hoa]

/-- Witness for C10 at the concrete open-access pool. -/
theorem c10_open_access_no_remote_witness :
    (checkout 0 3 docReady 1 openAccessPool).calls = 0 ∧
    (checkout 0 3 docReady 1 openAccessPool).outcome =
      Except.ok (⟨none, none, none⟩ : LoanInfo) ∧
    (checkin 0 3 docReturnable docReturned 1 openAccessPool).calls = 0 :=
  c10_open_access_no_remote 0 3 docReady docReturnable docReturned 1
    openAccessPool rfl

end ODL2
